import Mathlib

/-!
Shallow embedding of the poker hand evaluator (the `HandEvaluator` class and
the `evaluateHand` entry point).

Validated cards are exactly a rank symbol and a suit symbol, modelled as a
structure.  Each private method of the class is translated to a pure function
of the hand.  The source memoizes every category flag on `this.evaluation`
and sorts `this.cards` in place before each read; all in-place sorts are
stable sorts keyed on the rank value only, so the relative order of
equal-rank cards never changes during one evaluation, and every read of the
array equals a stable sort of the originally supplied hand.  Stable sorting
is modelled with `List.insertionSort` (JavaScript `Array.prototype.sort` is
required to be stable, and a stable sort by a given key is unique).
-/

inductive Rank where
  | A | K | Q | J | T | n9 | n8 | n7 | n6 | n5 | n4 | n3 | n2
deriving DecidableEq, Repr, Fintype

inductive Suit where
  | s | h | d | c
deriving DecidableEq, Repr, Fintype

structure Card where
  rank : Rank
  suit : Suit
deriving DecidableEq, Repr, Fintype

/-- Ace-high rank value (`#getRankValue`): A=13, K=12, ..., 2=1. -/
def rankValue : Rank → Nat
  | .A => 13 | .K => 12 | .Q => 11 | .J => 10 | .T => 9
  | .n9 => 8 | .n8 => 7 | .n7 => 6 | .n6 => 5 | .n5 => 4
  | .n4 => 3 | .n3 => 2 | .n2 => 1

/-- Ace-low (wheel) rank value (`#getRankValueWheel`): A=1, 2=2, ..., K=13. -/
def rankValueWheel : Rank → Nat
  | .A => 1 | .n2 => 2 | .n3 => 3 | .n4 => 4 | .n5 => 5
  | .n6 => 6 | .n7 => 7 | .n8 => 8 | .n9 => 9 | .T => 10
  | .J => 11 | .Q => 12 | .K => 13

/-- Comparator relation of `#sort`: descending by ace-high rank value. -/
def aceGE (a b : Card) : Prop := rankValue b.rank ≤ rankValue a.rank

/-- Comparator relation of `#sortWheel`: descending by wheel rank value. -/
def wheelGE (a b : Card) : Prop := rankValueWheel b.rank ≤ rankValueWheel a.rank

instance : DecidableRel aceGE := fun _ _ => Nat.decLe _ _

instance : DecidableRel wheelGE := fun _ _ => Nat.decLe _ _

/-- The in-place `#sort` (stable, descending by ace-high rank value). -/
def aceSort (l : List Card) : List Card := List.insertionSort aceGE l

/-- The in-place `#sortWheel` (stable, descending by wheel rank value). -/
def wheelSort (l : List Card) : List Card := List.insertionSort wheelGE l

/-- Rank projection of a hand. -/
def ranksOf (l : List Card) : List Rank := l.map Card.rank

/-- Number of cards of rank `r` in the hand (one entry of the rank histogram
built by `#countRanks` / `#getRankCounts`). -/
def rankCount (hand : List Card) (r : Rank) : Nat := (ranksOf hand).count r

/-- Number of cards of suit `s` in the hand (one entry of `#countSuits`). -/
def suitCount (hand : List Card) (st : Suit) : Nat := (hand.map Card.suit).count st

/-- The four suits, in the fixed order used to scan the suit histogram. -/
def allSuits : List Suit := [Suit.s, Suit.h, Suit.d, Suit.c]

/-- Whether some suit occurs exactly `n` times
(`Object.values(this.#countSuits()).some(count => count === n)`; a count of
`n ≥ 1` forces the suit to be present in the histogram, so scanning all four
suits is equivalent to scanning the histogram's values). -/
def someSuitCount (hand : List Card) (n : Nat) : Bool :=
  allSuits.any (fun st => suitCount hand st == n)

/-- Distinct ranks of the hand in the iteration order of the rank histogram
(the histogram is built after `#sort`, so first occurrences follow the
ace-high sorted order). -/
def dedupRanks (hand : List Card) : List Rank := (ranksOf (aceSort hand)).dedup

/-- Sorted descending list of rank-histogram values (`#countRanks`).  The
source sorts the histogram's values descending, so the object's key
iteration order is irrelevant. -/
def countRanks (hand : List Card) : List Nat :=
  List.insertionSort (fun a b => b ≤ a) ((dedupRanks hand).map (rankCount hand))

/-- Entries `(rank, count)` sorted by ace-high rank value descending
(`#getRankCountsSorted`; the `value` field of the source's objects is
`rankValue` of the rank, used only for sorting). -/
def rankCountsSorted (hand : List Card) : List (Rank × Nat) :=
  List.insertionSort (fun a b => rankValue b.1 ≤ rankValue a.1)
    ((dedupRanks hand).map (fun r => (r, rankCount hand r)))

/-- Placeholder card used to totalize reads that cannot fail on a 5-card
hand (JavaScript would read `undefined` there). -/
def dummyCard : Card := ⟨Rank.A, Suit.s⟩

/-- Distance between highest and lowest ace-high rank value
(`#getDistance`): the cards are sorted descending and the last value is
subtracted from the first; `0` for the empty list. -/
def distAce (l : List Card) : Nat :=
  match aceSort l with
  | [] => 0
  | c :: rest => rankValue c.rank - rankValue ((rest.getLastD c).rank)

/-- Distance between highest and lowest wheel rank value
(`#getDistanceWheel`). -/
def distWheel (l : List Card) : Nat :=
  match wheelSort l with
  | [] => 0
  | c :: rest => rankValueWheel c.rank - rankValueWheel ((rest.getLastD c).rank)

/-- Gaps between consecutive cards of the ace-high sorted hand
(`#getGaps`): four differences for a 5-card hand. -/
def gapsAce (hand : List Card) : List Nat :=
  (List.range 4).map (fun i =>
    rankValue ((aceSort hand).getD i dummyCard).rank -
      rankValue ((aceSort hand).getD (i + 1) dummyCard).rank)

/-- Gaps between consecutive cards of the wheel sorted hand
(`#getGapsWheel`). -/
def gapsWheel (hand : List Card) : List Nat :=
  (List.range 4).map (fun i =>
    rankValueWheel ((wheelSort hand).getD i dummyCard).rank -
      rankValueWheel ((wheelSort hand).getD (i + 1) dummyCard).rank)

/-- Slice `cards.slice(0, 4)` of the ace-high sorted hand. -/
def firstFourAce (hand : List Card) : List Card := (aceSort hand).take 4

/-- Slice `cards.slice(1, 5)` of the ace-high sorted hand. -/
def lastFourAce (hand : List Card) : List Card := ((aceSort hand).drop 1).take 4

/-- Slice `cards.slice(0, 4)` of the wheel sorted hand. -/
def firstFourWheel (hand : List Card) : List Card := (wheelSort hand).take 4

/-- Slice `cards.slice(1, 5)` of the wheel sorted hand. -/
def lastFourWheel (hand : List Card) : List Card := ((wheelSort hand).drop 1).take 4

/-! Category flags.  Each `#isX` method memoizes its result; on a fresh
evaluation the methods run in the fixed order of `#evaluateSingleHand`, so
each boolean below is the value stored for the corresponding key.  Reads
such as `ranks[1]` that JavaScript answers with `undefined` are modelled
with `getD` and a default that fails the comparison exactly as
`undefined === n` does. -/

/-- Four of a kind (`#isFourOfAKind`): sorted rank counts start `4, 1`. -/
def isFourOfAKind (hand : List Card) : Bool :=
  (countRanks hand).getD 0 0 == 4 && (countRanks hand).getD 1 0 == 1

/-- Full house (`#isFullHouse`): sorted rank counts start `3, 2`. -/
def isFullHouse (hand : List Card) : Bool :=
  (countRanks hand).getD 0 0 == 3 && (countRanks hand).getD 1 0 == 2

/-- Three of a kind (`#isThreeOfAKind`): sorted rank counts start `3, 1, 1`. -/
def isThreeOfAKind (hand : List Card) : Bool :=
  (countRanks hand).getD 0 0 == 3 && (countRanks hand).getD 1 0 == 1 &&
    (countRanks hand).getD 2 0 == 1

/-- Two pair (`#isTwoPair`): sorted rank counts start `2, 2, 1`. -/
def isTwoPair (hand : List Card) : Bool :=
  (countRanks hand).getD 0 0 == 2 && (countRanks hand).getD 1 0 == 2 &&
    (countRanks hand).getD 2 0 == 1

/-- Pair (`#isPair`): sorted rank counts are `2, 1, 1, 1`. -/
def isPair (hand : List Card) : Bool :=
  (countRanks hand).getD 0 0 == 2 && (countRanks hand).getD 1 0 == 1 &&
    (countRanks hand).getD 2 0 == 1 && (countRanks hand).getD 3 0 == 1

/-- Guard shared by the straight and draw predicates: the hand contains a
pair or better. -/
def pairOrBetter (hand : List Card) : Bool :=
  isPair hand || isTwoPair hand || isThreeOfAKind hand || isFullHouse hand ||
    isFourOfAKind hand

/-- Flush (`#isFlush`): some suit count equals 5. -/
def isFlush (hand : List Card) : Bool := someSuitCount hand 5

/-- Top pair (`#isTopPair`): a pair whose paired rank is the rank of the
first card of the ace-high sorted hand. -/
def isTopPair (hand : List Card) : Bool :=
  isPair hand &&
    rankCount hand (((aceSort hand).headD dummyCard).rank) == 2

/-- Middle pair (`#isMiddlePair`): a single pair (not two pair), four
distinct ranks, and the pair at position 1 or 2 of the rank-sorted list. -/
def isMiddlePair (hand : List Card) : Bool :=
  isPair hand && !isTwoPair hand &&
    ((rankCountsSorted hand).length == 4 &&
      (((rankCountsSorted hand).getD 1 (Rank.A, 0)).2 == 2 ||
        ((rankCountsSorted hand).getD 2 (Rank.A, 0)).2 == 2))

/-- Bottom pair (`#isBottomPair`): a pair whose paired rank is the rank of
the last card of the ace-high sorted hand. -/
def isBottomPair (hand : List Card) : Bool :=
  isPair hand &&
    rankCount hand (((aceSort hand).getLastD dummyCard).rank) == 2

/-- Top and middle pair (`#isTopAndMiddlePair`): two pair occupying
positions 0 and 1 of the rank-sorted list. -/
def isTopAndMiddlePair (hand : List Card) : Bool :=
  isTwoPair hand &&
    (((rankCountsSorted hand).getD 0 (Rank.A, 0)).2 == 2 &&
      ((rankCountsSorted hand).getD 1 (Rank.A, 0)).2 == 2)

/-- Top and bottom pair (`#isTopAndBottomPair`): two pair occupying
position 0 and the last position of the rank-sorted list. -/
def isTopAndBottomPair (hand : List Card) : Bool :=
  isTwoPair hand &&
    (((rankCountsSorted hand).getD 0 (Rank.A, 0)).2 == 2 &&
      ((rankCountsSorted hand).getD ((rankCountsSorted hand).length - 1)
          (Rank.A, 0)).2 == 2)

/-- Middle and bottom pair (`#isMiddleAndBottomPair`): exactly three
distinct ranks with pairs at positions 1 and 2 of the rank-sorted list. -/
def isMiddleAndBottomPair (hand : List Card) : Bool :=
  isTwoPair hand &&
    ((rankCountsSorted hand).length == 3 &&
      ((rankCountsSorted hand).getD 1 (Rank.A, 0)).2 == 2 &&
      ((rankCountsSorted hand).getD 2 (Rank.A, 0)).2 == 2)

/-- Top three of a kind (`#isTopThreeOfAKind`). -/
def isTopThreeOfAKind (hand : List Card) : Bool :=
  isThreeOfAKind hand &&
    rankCount hand (((aceSort hand).headD dummyCard).rank) == 3

/-- Middle three of a kind (`#isMiddleThreeOfAKind`). -/
def isMiddleThreeOfAKind (hand : List Card) : Bool :=
  isThreeOfAKind hand &&
    ((rankCountsSorted hand).length == 3 &&
      ((rankCountsSorted hand).getD 1 (Rank.A, 0)).2 == 3)

/-- Bottom three of a kind (`#isBottomThreeOfAKind`). -/
def isBottomThreeOfAKind (hand : List Card) : Bool :=
  isThreeOfAKind hand &&
    rankCount hand (((aceSort hand).getLastD dummyCard).rank) == 3

/-- Flush draw (`#isFlushDraw`): not a flush and some suit count equals 4. -/
def isFlushDraw (hand : List Card) : Bool :=
  !isFlush hand && someSuitCount hand 4

/-- Backdoor flush draw (`#isBackdoorFlushDraw`): not a flush, not a flush
draw, and some suit count equals 3. -/
def isBackdoorFlushDraw (hand : List Card) : Bool :=
  !isFlush hand && !isFlushDraw hand && someSuitCount hand 3

/-- Wheel straight (`#isStraightWheel`): no pair or better and wheel
distance 4 over the whole hand. -/
def isStraightWheel (hand : List Card) : Bool :=
  !pairOrBetter hand && distWheel hand == 4

/-- Straight (`#isStraight`): no pair or better, and ace-high distance 4 or
a wheel straight. -/
def isStraight (hand : List Card) : Bool :=
  !pairOrBetter hand && (distAce hand == 4 || isStraightWheel hand)

/-- Royal flush (`#isRoyalFlush`): flush and straight with ranks containing
A, K, Q, J, T. -/
def isRoyalFlush (hand : List Card) : Bool :=
  isFlush hand && isStraight hand &&
    ((ranksOf hand).contains Rank.A && (ranksOf hand).contains Rank.K &&
      (ranksOf hand).contains Rank.Q && (ranksOf hand).contains Rank.J &&
      (ranksOf hand).contains Rank.T)

/-- Straight flush (`#isStraightFlush`): flush and straight but not royal. -/
def isStraightFlush (hand : List Card) : Bool :=
  isFlush hand && isStraight hand && !isRoyalFlush hand

/-- Value computed by `#isOpenEndedStraightDrawWheel` when its body runs:
no pair or better, not a wheel straight, and one of the two wheel-sorted
4-card slices has wheel distance 3. -/
def isOpenEndedStraightDrawWheel (hand : List Card) : Bool :=
  !pairOrBetter hand && !isStraightWheel hand &&
    (distWheel (firstFourWheel hand) == 3 || distWheel (lastFourWheel hand) == 3)

/-- Open-ended straight draw (`#isOpenEndedStraightDraw`): if the hand has a
pair or better or is a straight, fall back to the wheel variant; otherwise
one of the two ace-high 4-card slices has distance 3, with the wheel variant
as a second chance. -/
def isOpenEndedStraightDraw (hand : List Card) : Bool :=
  if pairOrBetter hand || isStraight hand then
    isOpenEndedStraightDrawWheel hand
  else
    (distAce (firstFourAce hand) == 3 || distAce (lastFourAce hand) == 3) ||
      isOpenEndedStraightDrawWheel hand

/-- Stored value of the `isOpenEndedStraightDrawWheel` key in the finished
evaluation object: when `#isOpenEndedStraightDraw` succeeds through the
plain ace-high slice check it returns before ever calling the wheel
variant, leaving the key `undefined` (read back as falsy), because no later
method computes it. -/
def storedOpenEndedStraightDrawWheel (hand : List Card) : Bool :=
  if pairOrBetter hand || isStraight hand then
    isOpenEndedStraightDrawWheel hand
  else if distAce (firstFourAce hand) == 3 || distAce (lastFourAce hand) == 3 then
    false
  else
    isOpenEndedStraightDrawWheel hand

/-- Value computed by `#isInsideStraightDrawWheel` when its body runs. -/
def isInsideStraightDrawWheel (hand : List Card) : Bool :=
  !pairOrBetter hand && !isStraightWheel hand &&
    (distWheel (firstFourWheel hand) == 4 || distWheel (lastFourWheel hand) == 4)

/-- Inside straight draw (`#isInsideStraightDraw`): like the open-ended
draw but with slice distance 4. -/
def isInsideStraightDraw (hand : List Card) : Bool :=
  if pairOrBetter hand || isStraight hand then
    isInsideStraightDrawWheel hand
  else
    (distAce (firstFourAce hand) == 4 || distAce (lastFourAce hand) == 4) ||
      isInsideStraightDrawWheel hand

/-- Stored value of the `isInsideStraightDrawWheel` key (see
`storedOpenEndedStraightDrawWheel` for the `undefined` case). -/
def storedInsideStraightDrawWheel (hand : List Card) : Bool :=
  if pairOrBetter hand || isStraight hand then
    isInsideStraightDrawWheel hand
  else if distAce (firstFourAce hand) == 4 || distAce (lastFourAce hand) == 4 then
    false
  else
    isInsideStraightDrawWheel hand

/-- Straight draw (`#isStraightDraw`): open-ended or inside. -/
def isStraightDraw (hand : List Card) : Bool :=
  isOpenEndedStraightDraw hand || isInsideStraightDraw hand

/-- High card (`#isHighCard`): none of pair, two pair, three of a kind,
full house, four of a kind, flush, straight. -/
def isHighCard (hand : List Card) : Bool :=
  !isPair hand && !isTwoPair hand && !isThreeOfAKind hand &&
    !isFullHouse hand && !isFourOfAKind hand && !isFlush hand &&
    !isStraight hand

/-! Key-card extraction.  The `find` calls over histogram keys are modelled
with `find?` over the distinct ranks / the four suits: every count looked
up (5, 4, 3 or 2 under the corresponding flag) forces the key to be
present, and the match is unique, so the object's key iteration order is
irrelevant.  Filters run over `this.cards`; equal-rank cards keep their
original relative order throughout (stable sorts only), so filtering the
hand and stable-sorting the result models `this.cards.filter(...).sort(...)`. -/

/-- First rank whose histogram count is `n` (`Object.keys(...).find`). -/
def findRankWithCount (hand : List Card) (n : Nat) : Option Rank :=
  (dedupRanks hand).find? (fun r => rankCount hand r == n)

/-- First suit whose histogram count is `n`. -/
def findSuitWithCount (hand : List Card) (n : Nat) : Option Suit :=
  allSuits.find? (fun st => suitCount hand st == n)

/-- The 5 cards of a straight (`#getStraightCards`): the ace-high sorted
hand when all ace-high gaps are 1, else the wheel sorted hand when all
wheel gaps are 1, else empty. -/
def getStraightCards (hand : List Card) : List Card :=
  if (gapsAce hand).all (fun g => g == 1) then aceSort hand
  else if (gapsWheel hand).all (fun g => g == 1) then wheelSort hand
  else []

/-- The 4 cards of a straight draw (`#getStraightDrawCards`): the first
slice, in check order, whose distance is 3 or 4 (ace-high slices first,
then wheel slices), sorted descending in the matching order; empty if no
slice qualifies. -/
def getStraightDrawCards (hand : List Card) : List Card :=
  if distAce (firstFourAce hand) == 3 || distAce (firstFourAce hand) == 4 then
    aceSort (firstFourAce hand)
  else if distAce (lastFourAce hand) == 3 || distAce (lastFourAce hand) == 4 then
    aceSort (lastFourAce hand)
  else if distWheel (firstFourWheel hand) == 3 ||
      distWheel (firstFourWheel hand) == 4 then
    wheelSort (firstFourWheel hand)
  else if distWheel (lastFourWheel hand) == 3 ||
      distWheel (lastFourWheel hand) == 4 then
    wheelSort (lastFourWheel hand)
  else []

/-- Key cards for a pair (`#getKeyCardsForPair`). -/
def keyCardsPair (hand : List Card) : List Card :=
  if !isPair hand then []
  else
    match findRankWithCount hand 2 with
    | none => []
    | some r => aceSort (hand.filter (fun c => c.rank == r))

/-- Key cards for two pair (`#getKeyCardsForTwoPair`). -/
def keyCardsTwoPair (hand : List Card) : List Card :=
  if !isTwoPair hand then []
  else
    let prs := (dedupRanks hand).filter (fun r => rankCount hand r == 2)
    aceSort (hand.filter (fun c => prs.contains c.rank))

/-- Key cards for three of a kind (`#getKeyCardsForThreeOfAKind`). -/
def keyCardsThreeOfAKind (hand : List Card) : List Card :=
  if !isThreeOfAKind hand then []
  else
    match findRankWithCount hand 3 with
    | none => []
    | some r => aceSort (hand.filter (fun c => c.rank == r))

/-- Key cards for four of a kind (`#getKeyCardsForFourOfAKind`). -/
def keyCardsFourOfAKind (hand : List Card) : List Card :=
  if !isFourOfAKind hand then []
  else
    match findRankWithCount hand 4 with
    | none => []
    | some r => aceSort (hand.filter (fun c => c.rank == r))

/-- The 27 category keys of one evaluation object, in the order of
`#buildKeyCardsObject`. -/
inductive Category where
  | isRoyalFlush | isStraightFlush | isFourOfAKind | isFullHouse | isFlush
  | isStraight | isThreeOfAKind | isTwoPair | isPair
  | isTopPair | isMiddlePair | isBottomPair
  | isTopAndMiddlePair | isTopAndBottomPair | isMiddleAndBottomPair
  | isTopThreeOfAKind | isMiddleThreeOfAKind | isBottomThreeOfAKind
  | isFlushDraw | isBackdoorFlushDraw
  | isOpenEndedStraightDraw | isInsideStraightDraw | isStraightDraw
  | isStraightWheel | isOpenEndedStraightDrawWheel | isInsideStraightDrawWheel
  | isHighCard
deriving DecidableEq, Repr, Fintype

/-- Boolean stored under each category key after all the predicate methods
of `#evaluateSingleHand` have run (the wheel draw keys hold their stored
value, which is falsy when the method was never called). -/
def flagOf (hand : List Card) : Category → Bool
  | .isRoyalFlush => isRoyalFlush hand
  | .isStraightFlush => isStraightFlush hand
  | .isFourOfAKind => isFourOfAKind hand
  | .isFullHouse => isFullHouse hand
  | .isFlush => isFlush hand
  | .isStraight => isStraight hand
  | .isThreeOfAKind => isThreeOfAKind hand
  | .isTwoPair => isTwoPair hand
  | .isPair => isPair hand
  | .isTopPair => isTopPair hand
  | .isMiddlePair => isMiddlePair hand
  | .isBottomPair => isBottomPair hand
  | .isTopAndMiddlePair => isTopAndMiddlePair hand
  | .isTopAndBottomPair => isTopAndBottomPair hand
  | .isMiddleAndBottomPair => isMiddleAndBottomPair hand
  | .isTopThreeOfAKind => isTopThreeOfAKind hand
  | .isMiddleThreeOfAKind => isMiddleThreeOfAKind hand
  | .isBottomThreeOfAKind => isBottomThreeOfAKind hand
  | .isFlushDraw => isFlushDraw hand
  | .isBackdoorFlushDraw => isBackdoorFlushDraw hand
  | .isOpenEndedStraightDraw => isOpenEndedStraightDraw hand
  | .isInsideStraightDraw => isInsideStraightDraw hand
  | .isStraightDraw => isStraightDraw hand
  | .isStraightWheel => isStraightWheel hand
  | .isOpenEndedStraightDrawWheel => storedOpenEndedStraightDrawWheel hand
  | .isInsideStraightDrawWheel => storedInsideStraightDrawWheel hand
  | .isHighCard => isHighCard hand

/-- Key cards per category (`#buildKeyCardsObject`): each getter returns
empty unless its own stored flag is truthy. -/
def keyCardsOf (hand : List Card) : Category → List Card
  | .isRoyalFlush => if !isRoyalFlush hand then [] else aceSort hand
  | .isStraightFlush => if !isStraightFlush hand then [] else aceSort hand
  | .isFourOfAKind => keyCardsFourOfAKind hand
  | .isFullHouse => if !isFullHouse hand then [] else aceSort hand
  | .isFlush =>
    if !isFlush hand then []
    else
      match findSuitWithCount hand 5 with
      | none => []
      | some st => aceSort (hand.filter (fun c => c.suit == st))
  | .isStraight => if !isStraight hand then [] else getStraightCards hand
  | .isThreeOfAKind => keyCardsThreeOfAKind hand
  | .isTwoPair => keyCardsTwoPair hand
  | .isPair => keyCardsPair hand
  | .isTopPair => if !isTopPair hand then [] else keyCardsPair hand
  | .isMiddlePair => if !isMiddlePair hand then [] else keyCardsPair hand
  | .isBottomPair => if !isBottomPair hand then [] else keyCardsPair hand
  | .isTopAndMiddlePair =>
    if !isTopAndMiddlePair hand then [] else keyCardsTwoPair hand
  | .isTopAndBottomPair =>
    if !isTopAndBottomPair hand then [] else keyCardsTwoPair hand
  | .isMiddleAndBottomPair =>
    if !isMiddleAndBottomPair hand then [] else keyCardsTwoPair hand
  | .isTopThreeOfAKind =>
    if !isTopThreeOfAKind hand then [] else keyCardsThreeOfAKind hand
  | .isMiddleThreeOfAKind =>
    if !isMiddleThreeOfAKind hand then [] else keyCardsThreeOfAKind hand
  | .isBottomThreeOfAKind =>
    if !isBottomThreeOfAKind hand then [] else keyCardsThreeOfAKind hand
  | .isFlushDraw =>
    if !isFlushDraw hand then []
    else
      match findSuitWithCount hand 4 with
      | none => []
      | some st => aceSort (hand.filter (fun c => c.suit == st))
  | .isBackdoorFlushDraw =>
    if !isBackdoorFlushDraw hand then []
    else
      match findSuitWithCount hand 3 with
      | none => []
      | some st => aceSort (hand.filter (fun c => c.suit == st))
  | .isOpenEndedStraightDraw =>
    if !isOpenEndedStraightDraw hand then [] else getStraightDrawCards hand
  | .isInsideStraightDraw =>
    if !isInsideStraightDraw hand then [] else getStraightDrawCards hand
  | .isStraightDraw =>
    if !isStraightDraw hand then [] else getStraightDrawCards hand
  | .isStraightWheel =>
    if !isStraightWheel hand then [] else getStraightCards hand
  | .isOpenEndedStraightDrawWheel =>
    if !storedOpenEndedStraightDrawWheel hand then []
    else getStraightDrawCards hand
  | .isInsideStraightDrawWheel =>
    if !storedInsideStraightDrawWheel hand then []
    else getStraightDrawCards hand
  | .isHighCard => []

/-- Kicker cards per category (`#buildKickerCardsObject`): the sorted whole
hand for `isHighCard` (unconditionally), empty when the key cards are
empty, otherwise the hand minus the key-card set, sorted descending. -/
def kickerCardsOf (hand : List Card) (c : Category) : List Card :=
  if c = Category.isHighCard then aceSort hand
  else
    let k := keyCardsOf hand c
    if k.isEmpty then []
    else aceSort (hand.filter (fun x => !k.contains x))

/-- One evaluation object: the 27 stored booleans plus the two maps. -/
structure Evaluation where
  flags : Category → Bool
  keyCards : Category → List Card
  kickerCards : Category → List Card

/-- The evaluation of one 5-card hand before strict filtering. -/
def nonStrictEval (hand : List Card) : Evaluation :=
  ⟨flagOf hand, keyCardsOf hand, kickerCardsOf hand⟩

/-- The `handStrength` table of `#applyStrictMode`. -/
def handStrengthEntries : List (Category × Nat) :=
  [(.isRoyalFlush, 10), (.isStraightFlush, 9), (.isFourOfAKind, 8),
   (.isFullHouse, 7), (.isFlush, 6), (.isStraight, 5), (.isThreeOfAKind, 4),
   (.isTwoPair, 3), (.isPair, 2), (.isHighCard, 1)]

/-- Strength assigned to the ten base made hands by `#applyStrictMode`. -/
def baseStrength : Category → Nat
  | .isRoyalFlush => 10
  | .isStraightFlush => 9
  | .isFourOfAKind => 8
  | .isFullHouse => 7
  | .isFlush => 6
  | .isStraight => 5
  | .isThreeOfAKind => 4
  | .isTwoPair => 3
  | .isPair => 2
  | .isHighCard => 1
  | _ => 0

/-- Maximum strength among the made hands currently flagged true. -/
def strongestMadeHand (f : Category → Bool) : Nat :=
  handStrengthEntries.foldl (fun m p => if f p.1 then max m p.2 else m) 0

/-- The boolean rewrites of `#applyStrictMode`: made hands weaker than the
strongest are cleared; positional labels are cleared unless the strongest
is exactly their base; the three straight-draw flags are cleared when the
strongest is flush or better; flush draws and wheel keys are untouched. -/
def strictFlags (f : Category → Bool) : Category → Bool := fun c =>
  let strongest := strongestMadeHand f
  match c with
  | .isRoyalFlush | .isStraightFlush | .isFourOfAKind | .isFullHouse
  | .isFlush | .isStraight | .isThreeOfAKind | .isTwoPair | .isPair
  | .isHighCard =>
    if baseStrength c < strongest then false else f c
  | .isTopPair | .isMiddlePair | .isBottomPair =>
    if strongest ≠ 2 then false else f c
  | .isTopAndMiddlePair | .isTopAndBottomPair | .isMiddleAndBottomPair =>
    if strongest ≠ 3 then false else f c
  | .isTopThreeOfAKind | .isMiddleThreeOfAKind | .isBottomThreeOfAKind =>
    if strongest ≠ 4 then false else f c
  | .isStraightDraw | .isOpenEndedStraightDraw | .isInsideStraightDraw =>
    if 6 ≤ strongest then false else f c
  | .isFlushDraw | .isBackdoorFlushDraw | .isStraightWheel
  | .isOpenEndedStraightDrawWheel | .isInsideStraightDrawWheel => f c

/-- Strict-mode filtering (`#applyStrictMode`): only the booleans are
rewritten; `keyCards` and `kickerCards` are left as built. -/
def applyStrictMode (e : Evaluation) : Evaluation :=
  { e with flags := strictFlags e.flags }

/-- Evaluation of one 5-card hand (`#evaluateSingleHand`): all predicates,
then key and kicker cards, then strict filtering if enabled. -/
def evaluateSingleHand (hand : List Card) (strict : Bool) : Evaluation :=
  if strict then applyStrictMode (nonStrictEval hand) else nonStrictEval hand

/-! Orchestration: hand keys, combination generation, and the public entry
point including input validation. -/

/-- Textual rank symbol of a card token. -/
def rankStr : Rank → String
  | .A => "A" | .K => "K" | .Q => "Q" | .J => "J" | .T => "T"
  | .n9 => "9" | .n8 => "8" | .n7 => "7" | .n6 => "6" | .n5 => "5"
  | .n4 => "4" | .n3 => "3" | .n2 => "2"

/-- Textual suit symbol of a card token. -/
def suitStr : Suit → String
  | .s => "s" | .h => "h" | .d => "d" | .c => "c"

/-- Rendering of one card token. -/
def cardStr (c : Card) : String := rankStr c.rank ++ suitStr c.suit

/-- Canonical hand key (`#formatHandKey`): the cards stable-sorted
descending by ace-high rank value, joined by a comma and a space.  The copy
is sorted before `#evaluateSingleHand` runs, so ties follow the caller's
input order. -/
def formatHandKey (hand : List Card) : String :=
  String.intercalate ", " ((aceSort hand).map cardStr)

/-- Combination generation (`#generateCombinations`): for each admissible
start index, the card there is prepended to every combination of the
remaining size drawn from the cards after it. -/
def generateCombinations : Nat → List Card → List (List Card)
  | 0, _ => [[]]
  | n + 1, cards =>
    if cards.length < n + 1 then []
    else if cards.length == n + 1 then [cards]
    else
      ((List.range (cards.length - (n + 1) + 1)).map (fun i =>
        (generateCombinations n (cards.drop (i + 1))).map
          (fun combo => cards.getD i dummyCard :: combo))).flatten

/-- Evaluation of all combinations (`#evaluateAllCombinations`): one entry
for exactly 5 cards; otherwise one entry per generated combination.  Each
sub-evaluator is built as `new HandEvaluator(combination)` without the
strict argument, so every combination is evaluated with the default
`strict = true` regardless of the outer flag. -/
def evaluateAllCombinations (cards : List Card) (strict : Bool) :
    List (String × Evaluation) :=
  if cards.length == 5 then
    [(formatHandKey cards, evaluateSingleHand cards strict)]
  else
    (generateCombinations 5 cards).map (fun comb =>
      (formatHandKey comb, evaluateSingleHand comb true))

/-- The valid rank symbols of `#validateCards`. -/
def validRankStrings : List String :=
  ["A", "K", "Q", "J", "T", "9", "8", "7", "6", "5", "4", "3", "2"]

/-- The valid suit symbols of `#validateCards`. -/
def validSuitStrings : List String := ["s", "h", "d", "c"]

/-- Error kinds raised by `#validateCards`, one per distinct message.  The
non-array and non-string inputs of the source are ruled out by the model's
types. -/
inductive ValidationError where
  | tooFewCards (n : Nat)
  | invalidFormat (i : Nat) (card : String)
  | duplicateCard (card : String)
  | invalidRank (i : Nat) (rank : String)
  | invalidSuit (i : Nat) (suit : String)
deriving DecidableEq, Repr

/-- The per-card loop of `#validateCards`: format, duplicate, rank (all
characters but the last), then suit (the last character), in the source's
check order, accumulating the seen set. -/
def validateLoop (i : Nat) (seen : List String) :
    List String → Except ValidationError Unit
  | [] => .ok ()
  | card :: rest =>
    if card.length < 2 then .error (.invalidFormat i card)
    else if seen.contains card then .error (.duplicateCard card)
    else if !validRankStrings.contains (card.dropRight 1) then
      .error (.invalidRank i (card.dropRight 1))
    else if !validSuitStrings.contains (card.takeRight 1) then
      .error (.invalidSuit i (card.takeRight 1))
    else validateLoop (i + 1) (card :: seen) rest

/-- Input validation (`#validateCards`). -/
def validateCards (cards : List String) : Except ValidationError Unit :=
  if cards.length < 5 then .error (.tooFewCards cards.length)
  else validateLoop 0 [] cards

/-- Parse a valid rank symbol. -/
def parseRank (s : String) : Option Rank :=
  if s = "A" then some .A else if s = "K" then some .K
  else if s = "Q" then some .Q else if s = "J" then some .J
  else if s = "T" then some .T else if s = "9" then some .n9
  else if s = "8" then some .n8 else if s = "7" then some .n7
  else if s = "6" then some .n6 else if s = "5" then some .n5
  else if s = "4" then some .n4 else if s = "3" then some .n3
  else if s = "2" then some .n2 else none

/-- Parse a valid suit symbol. -/
def parseSuit (s : String) : Option Suit :=
  if s = "s" then some .s else if s = "h" then some .h
  else if s = "d" then some .d else if s = "c" then some .c else none

/-- Parse a validated card token (rank = all characters but the last, suit
= the last character, as in `#getRankValue` and `#countSuits`). -/
def parseCard (s : String) : Option Card :=
  match parseRank (s.dropRight 1), parseSuit (s.takeRight 1) with
  | some r, some st => some ⟨r, st⟩
  | _, _ => none

/-- The public entry point (`evaluateHand` / the `HandEvaluator`
constructor): validate, then evaluate every combination; a validation
failure aborts the whole call with no partial result. -/
def evaluateHand (cards : List String) (strict : Bool) :
    Except ValidationError (List (String × Evaluation)) :=
  match validateCards cards with
  | .error e => .error e
  | .ok _ => .ok (evaluateAllCombinations (cards.filterMap parseCard) strict)

/-- A well-formed card token: at least two characters, a recognized rank
(all characters but the last) and a recognized suit (the last character).
Since every valid rank symbol is a single character, such a token has
exactly two characters. -/
def wellFormedToken (s : String) : Prop :=
  2 ≤ s.length ∧ s.dropRight 1 ∈ validRankStrings ∧
    s.takeRight 1 ∈ validSuitStrings

instance (s : String) : Decidable (wellFormedToken s) := by
  unfold wellFormedToken; infer_instance

/-- A valid input: a sequence of at least 5 distinct well-formed tokens. -/
def validInput (cards : List String) : Prop :=
  5 ≤ cards.length ∧ (∀ s ∈ cards, wellFormedToken s) ∧ cards.Nodup

/-! Facts about the strict-mode reducer. -/

/-- The ten base made-hand categories, in table order. -/
def baseCategories : List Category := handStrengthEntries.map Prod.fst

/-- The fold computing the strongest made hand never decreases. -/
lemma le_foldl_strength (f : Category → Bool) :
    ∀ (l : List (Category × Nat)) (acc : Nat),
      acc ≤ l.foldl (fun m p => if f p.1 then max m p.2 else m) acc := by
  intro l
  induction l with
  | nil => intro acc; simp
  | cons p l ih =>
    intro acc
    refine le_trans ?_ (ih _)
    by_cases h : f p.1 = true <;> simp [h]

/-- Every strength of a true made-hand flag bounds the fold from below. -/
lemma strength_le_foldl (f : Category → Bool) (c : Category) (s : Nat)
    (hc : f c = true) :
    ∀ (l : List (Category × Nat)) (acc : Nat),
      (c, s) ∈ l →
        s ≤ l.foldl (fun m p => if f p.1 then max m p.2 else m) acc := by
  intro l
  induction l with
  | nil => intro acc h; simp at h
  | cons p l ih =>
    intro acc h
    rcases List.mem_cons.mp h with h | h
    · subst h
      exact le_trans (by simp [hc]) (le_foldl_strength f l _)
    · exact ih _ h

/-- A true made-hand flag's strength is at most the strongest made hand. -/
lemma strength_le_strongest (f : Category → Bool) (c : Category) (s : Nat)
    (hmem : (c, s) ∈ handStrengthEntries) (hc : f c = true) :
    s ≤ strongestMadeHand f :=
  strength_le_foldl f c s hc handStrengthEntries 0 hmem

/-- Membership of each base category with its strength in the table. -/
lemma base_mem_entries (c : Category) (hc : c ∈ baseCategories) :
    (c, baseStrength c) ∈ handStrengthEntries := by
  fin_cases hc <;> decide

/-- On the ten base categories, the strict filter keeps a flag exactly when
it was set and not weaker than the strongest made hand. -/
lemma strictFlags_base (f : Category → Bool) (c : Category)
    (hc : c ∈ baseCategories) :
    strictFlags f c =
      if baseStrength c < strongestMadeHand f then false else f c := by
  fin_cases hc <;> rfl

/-- The strength table is injective over the base categories. -/
lemma baseStrength_injective :
    ∀ c ∈ baseCategories, ∀ c' ∈ baseCategories,
      baseStrength c = baseStrength c' → c = c' := by decide

/-- A base flag surviving the strict filter was true before and realizes
the strongest strength. -/
lemma strict_survivor (f : Category → Bool) (c : Category)
    (hc : c ∈ baseCategories) (h : strictFlags f c = true) :
    f c = true ∧ baseStrength c = strongestMadeHand f := by
  rw [strictFlags_base f c hc] at h
  by_cases hlt : baseStrength c < strongestMadeHand f
  · simp [hlt] at h
  · simp [hlt] at h
    exact ⟨h, le_antisymm
      (strength_le_strongest f c _ (base_mem_entries c hc) h)
      (le_of_not_lt hlt)⟩

/-- Royal flush sample hand `['As', 'Ks', 'Qs', 'Js', 'Ts']`. -/
def sampleRoyal : List Card :=
  [⟨.A, .s⟩, ⟨.K, .s⟩, ⟨.Q, .s⟩, ⟨.J, .s⟩, ⟨.T, .s⟩]

/-- C1: for every valid 5-card hand evaluated with strictMode=true, at most
one of the ten base made-hand flags is true in the returned evaluation
(any two true base flags coincide), and a flag that remains true was true
in the unfiltered evaluation and has maximal strength among the base flags
true there. -/
theorem strict_mode_dominance (hand : List Card)
    (h5 : hand.length = 5) (hnd : hand.Nodup) :
    (∀ c ∈ baseCategories, ∀ c' ∈ baseCategories,
        (evaluateSingleHand hand true).flags c = true →
        (evaluateSingleHand hand true).flags c' = true → c = c') ∧
    (∀ c ∈ baseCategories, (evaluateSingleHand hand true).flags c = true →
      (evaluateSingleHand hand false).flags c = true ∧
        ∀ c' ∈ baseCategories,
          (evaluateSingleHand hand false).flags c' = true →
            baseStrength c' ≤ baseStrength c) := by
  have he : (evaluateSingleHand hand true).flags = strictFlags (flagOf hand) := rfl
  have he' : (evaluateSingleHand hand false).flags = flagOf hand := rfl
  rw [he, he']
  constructor
  · intro c hc c' hc' h h'
    obtain ⟨_, hs⟩ := strict_survivor _ c hc h
    obtain ⟨_, hs'⟩ := strict_survivor _ c' hc' h'
    exact baseStrength_injective c hc c' hc' (hs.trans hs'.symm)
  · intro c hc h
    obtain ⟨hf, hs⟩ := strict_survivor _ c hc h
    refine ⟨hf, fun c' hc' h' => ?_⟩
    rw [hs]
    exact strength_le_strongest _ c' _ (base_mem_entries c' hc') h'

/-- Witness for C1 at the royal flush hand. -/
theorem strict_mode_dominance_witness :
    (sampleRoyal.length = 5 ∧ sampleRoyal.Nodup) ∧
    ((∀ c ∈ baseCategories, ∀ c' ∈ baseCategories,
        (evaluateSingleHand sampleRoyal true).flags c = true →
        (evaluateSingleHand sampleRoyal true).flags c' = true → c = c') ∧
    (∀ c ∈ baseCategories,
        (evaluateSingleHand sampleRoyal true).flags c = true →
      (evaluateSingleHand sampleRoyal false).flags c = true ∧
        ∀ c' ∈ baseCategories,
          (evaluateSingleHand sampleRoyal false).flags c' = true →
            baseStrength c' ≤ baseStrength c)) :=
  ⟨⟨by decide, by decide⟩,
    strict_mode_dominance sampleRoyal (by decide) (by decide)⟩

/-- C9: the royal flush hand evaluated with strictMode=true keeps
`isOpenEndedStraightDrawWheel` true with its key cards populated (the flag
is produced through the wheel fallback inside `#isOpenEndedStraightDraw`
and is never cleared by `#applyStrictMode`), while `isStraightDraw`,
`isOpenEndedStraightDraw` and `isInsideStraightDraw` end up false. -/
theorem royal_strict_keeps_wheel_draw_flag :
    (evaluateSingleHand sampleRoyal true).flags
        Category.isOpenEndedStraightDrawWheel = true ∧
    (evaluateSingleHand sampleRoyal true).keyCards
        Category.isOpenEndedStraightDrawWheel =
      [⟨.A, .s⟩, ⟨.K, .s⟩, ⟨.Q, .s⟩, ⟨.J, .s⟩] ∧
    (evaluateSingleHand sampleRoyal true).flags Category.isStraightDraw = false ∧
    (evaluateSingleHand sampleRoyal true).flags
        Category.isOpenEndedStraightDraw = false ∧
    (evaluateSingleHand sampleRoyal true).flags
        Category.isInsideStraightDraw = false ∧
    (evaluateSingleHand sampleRoyal true).flags Category.isRoyalFlush = true := by
  decide

/-- Entries of a successful result, empty on a validation failure. -/
def okEntries (r : Except ValidationError (List (String × Evaluation))) :
    List (String × Evaluation) := r.toOption.getD []

/-- Six-card input `['As', 'Ks', 'Qs', 'Js', 'Ts', '9s']`. -/
def sixSpades : List String := ["As", "Ks", "Qs", "Js", "Ts", "9s"]

/-- C2 at the failing input: evaluating six cards with strictMode=false
still strict-filters every 5-card subset (the sub-evaluator is constructed
without the strict argument), so the royal-flush subset's entry reports
`isFlush = false` and `isStraight = false`, although the same subset
evaluated alone with strictMode=false reports both true. -/
theorem six_cards_non_strict_still_filters :
    ((okEntries (evaluateHand sixSpades false)).map Prod.fst).headD "" =
      "As, Ks, Qs, Js, Ts" ∧
    ((okEntries (evaluateHand sixSpades false)).headD
        ("", nonStrictEval [])).2.flags Category.isFlush = false ∧
    ((okEntries (evaluateHand sixSpades false)).headD
        ("", nonStrictEval [])).2.flags Category.isStraight = false ∧
    (evaluateSingleHand sampleRoyal false).flags Category.isFlush = true ∧
    (evaluateSingleHand sampleRoyal false).flags Category.isStraight = true := by
  decide

/-- C6 counterexample: permuting two equal-rank cards of a valid 5-card
input changes the Result's mapping key, because `#formatHandKey` sorts
stably by rank value only, so equal-rank cards keep their input order
inside the key string. -/
theorem order_sensitivity_of_hand_key :
    (["Ah", "As", "Kd", "Kc", "Qs"] : List String).Perm
      ["As", "Ah", "Kd", "Kc", "Qs"] ∧
    "As, Ah, Kd, Kc, Qs" ∈
      (okEntries (evaluateHand ["As", "Ah", "Kd", "Kc", "Qs"] true)).map
        Prod.fst ∧
    "As, Ah, Kd, Kc, Qs" ∉
      (okEntries (evaluateHand ["Ah", "As", "Kd", "Kc", "Qs"] true)).map
        Prod.fst := by
  decide

/-- Pair sample hand `['As', 'Ah', 'Kd', 'Qc', 'Js']`. -/
def samplePairHand : List Card :=
  [⟨.A, .s⟩, ⟨.A, .h⟩, ⟨.K, .d⟩, ⟨.Q, .c⟩, ⟨.J, .s⟩]

/-- C4 counterexample: (a) in strict mode the key cards are built before
`#applyStrictMode` and never refiltered, so the royal flush keeps non-empty
`keyCards.isFlush` while the returned `isFlush` flag is false; (b) the
kicker cards for `isHighCard` are unconditionally the full sorted hand, so
a pair hand in non-strict mode has `isHighCard = false` but non-empty
`kickerCards.isHighCard`. -/
theorem keycards_flag_iff_fails_as_stated :
    ((evaluateSingleHand sampleRoyal true).flags Category.isFlush = false ∧
      (evaluateSingleHand sampleRoyal true).keyCards Category.isFlush ≠ []) ∧
    ((evaluateSingleHand samplePairHand false).flags Category.isHighCard =
        false ∧
      (evaluateSingleHand samplePairHand false).kickerCards
          Category.isHighCard ≠ []) := by
  decide

/-! State of the aliased `this.cards` array.  The only mutations of the
caller's array are the in-place `#sort` / `#sortWheel` calls; the
functions below replay, per hand, exactly which sorts run (memoized
methods run their body once, in the call order of `#evaluateSingleHand`),
threading the array state through them. -/

/-- Array state after the predicate phase steps 1-17: `#countRanks` inside
`#isFourOfAKind` sorts ace-high first, and every later sort in this phase
is also ace-high. -/
def step17 (hand : List Card) : List Card := aceSort hand

/-- Array state update of `#isStraight` (step 18): nothing under the
pair-or-better guard; otherwise two ace sorts (`#sort` and
`#getDistance`), and on a failed distance check `#isStraightWheel` adds
two wheel sorts. -/
def step18 (hand : List Card) (st : List Card) : List Card :=
  if pairOrBetter hand then st
  else if distAce hand == 4 then aceSort (aceSort st)
  else wheelSort (wheelSort (aceSort (aceSort st)))

/-- Array state update of `#isOpenEndedStraightDraw` (step 21, after the
sort-free steps 19-20).  Under a pair-or-better guard the wheel variant
returns without sorting; when the hand is a straight found by distance the
wheel-straight flag is computed now (two wheel sorts) and the wheel draw
body may add one more; otherwise the body ace-sorts, and only a failed
slice check runs the wheel variant's single wheel sort. -/
def step21 (hand : List Card) (st : List Card) : List Card :=
  if pairOrBetter hand then st
  else if isStraight hand then
    (if distAce hand == 4 then
      (if isStraightWheel hand then wheelSort (wheelSort st)
       else wheelSort (wheelSort (wheelSort st)))
     else st)
  else if distAce (firstFourAce hand) == 3 || distAce (lastFourAce hand) == 3
    then aceSort st
  else wheelSort (aceSort st)

/-- Array state update of `#isInsideStraightDraw` (step 22); the wheel
straight flag is already memoized here. -/
def step22 (hand : List Card) (st : List Card) : List Card :=
  if pairOrBetter hand then st
  else if isStraight hand then
    (if isStraightWheel hand then st else wheelSort st)
  else if distAce (firstFourAce hand) == 4 || distAce (lastFourAce hand) == 4
    then aceSort st
  else wheelSort (aceSort st)

/-- Array state after all predicate methods have run. -/
def afterPredicates (hand : List Card) : List Card :=
  step22 hand (step21 hand (step18 hand (step17 hand)))

/-- Array state update of `#getStraightCards`: `#sort` plus `#getGaps`
(ace), then on a failed gap check `#sortWheel` plus `#getGapsWheel`. -/
def stepStraightCards (hand : List Card) (st : List Card) : List Card :=
  if (gapsAce hand).all (fun g => g == 1) then aceSort (aceSort st)
  else wheelSort (wheelSort (aceSort (aceSort st)))

/-- Array state update of `#getStraightDrawCards`: one ace sort, plus one
wheel sort when no ace-high slice has distance 3 or 4 (the slice distance
checks themselves sort copies). -/
def stepDrawCards (hand : List Card) (st : List Card) : List Card :=
  if (distAce (firstFourAce hand) == 3 || distAce (firstFourAce hand) == 4) ||
      (distAce (lastFourAce hand) == 3 || distAce (lastFourAce hand) == 4) then
    aceSort st
  else wheelSort (aceSort st)

/-- Run a getter's state update only when its category flag is truthy (all
getters return an empty list before sorting otherwise). -/
def stepIf (b : Bool) (f : List Card → List Card) (st : List Card) :
    List Card :=
  if b then f st else st

/-- The in-place sorting getters of `#buildKeyCardsObject`, in build order,
each paired with the flag that gates it (the royal flush, straight flush,
full house, flush, flush draw, backdoor and high card getters never sort in
place). -/
def getterSteps (hand : List Card) : List (Bool × (List Card → List Card)) :=
  [(isFourOfAKind hand, aceSort),
   (isStraight hand, stepStraightCards hand),
   (isThreeOfAKind hand, aceSort),
   (isTwoPair hand, aceSort),
   (isPair hand, aceSort),
   (isTopPair hand, aceSort),
   (isMiddlePair hand, aceSort),
   (isBottomPair hand, aceSort),
   (isTopAndMiddlePair hand, aceSort),
   (isTopAndBottomPair hand, aceSort),
   (isMiddleAndBottomPair hand, aceSort),
   (isTopThreeOfAKind hand, aceSort),
   (isMiddleThreeOfAKind hand, aceSort),
   (isBottomThreeOfAKind hand, aceSort),
   (isOpenEndedStraightDraw hand, stepDrawCards hand),
   (isInsideStraightDraw hand, stepDrawCards hand),
   (isStraightDraw hand, stepDrawCards hand),
   (isStraightWheel hand, stepStraightCards hand),
   (storedOpenEndedStraightDrawWheel hand, stepDrawCards hand),
   (storedInsideStraightDrawWheel hand, stepDrawCards hand)]

/-- Array state after `#buildKeyCardsObject`. -/
def afterKeyCards (hand : List Card) (st0 : List Card) : List Card :=
  (getterSteps hand).foldl (fun st p => stepIf p.1 p.2 st) st0

/-- State of the caller's array after the constructor finishes on exactly 5
cards (`#buildKickerCardsObject` and `#applyStrictMode` only sort copies or
rewrite booleans). -/
def finalCards (hand : List Card) : List Card :=
  afterKeyCards hand (afterPredicates hand)

/-- The ace-high sort permutes the array. -/
lemma aceSort_perm (l : List Card) : (aceSort l).Perm l :=
  List.perm_insertionSort _ l

/-- The wheel sort permutes the array. -/
lemma wheelSort_perm (l : List Card) : (wheelSort l).Perm l :=
  List.perm_insertionSort _ l

/-- Step 18's state update permutes the array. -/
lemma step18_perm (hand st : List Card) : (step18 hand st).Perm st := by
  unfold step18
  split
  · exact List.Perm.refl st
  · split
    · exact (aceSort_perm _).trans (aceSort_perm _)
    · exact (wheelSort_perm _).trans ((wheelSort_perm _).trans
        ((aceSort_perm _).trans (aceSort_perm _)))

/-- Step 21's state update permutes the array. -/
lemma step21_perm (hand st : List Card) : (step21 hand st).Perm st := by
  unfold step21
  split
  · exact List.Perm.refl st
  · split
    · split
      · split
        · exact (wheelSort_perm _).trans (wheelSort_perm _)
        · exact (wheelSort_perm _).trans ((wheelSort_perm _).trans
            (wheelSort_perm _))
      · exact List.Perm.refl st
    · split
      · exact aceSort_perm _
      · exact (wheelSort_perm _).trans (aceSort_perm _)

/-- Step 22's state update permutes the array. -/
lemma step22_perm (hand st : List Card) : (step22 hand st).Perm st := by
  unfold step22
  split
  · exact List.Perm.refl st
  · split
    · split
      · exact List.Perm.refl st
      · exact wheelSort_perm _
    · split
      · exact aceSort_perm _
      · exact (wheelSort_perm _).trans (aceSort_perm _)

/-- The predicate phase permutes the array. -/
lemma afterPredicates_perm (hand : List Card) :
    (afterPredicates hand).Perm hand :=
  (step22_perm hand _).trans ((step21_perm hand _).trans
    ((step18_perm hand _).trans (aceSort_perm hand)))

/-- `#getStraightCards`'s state update permutes the array. -/
lemma stepStraightCards_perm (hand st : List Card) :
    (stepStraightCards hand st).Perm st := by
  unfold stepStraightCards
  split
  · exact (aceSort_perm _).trans (aceSort_perm _)
  · exact (wheelSort_perm _).trans ((wheelSort_perm _).trans
      ((aceSort_perm _).trans (aceSort_perm _)))

/-- `#getStraightDrawCards`'s state update permutes the array. -/
lemma stepDrawCards_perm (hand st : List Card) :
    (stepDrawCards hand st).Perm st := by
  unfold stepDrawCards
  split
  · exact aceSort_perm _
  · exact (wheelSort_perm _).trans (aceSort_perm _)

/-- A gated getter step permutes the array when its updater does. -/
lemma stepIf_perm (b : Bool) (f : List Card → List Card) (st : List Card)
    (hf : ∀ x, (f x).Perm x) : (stepIf b f st).Perm st := by
  unfold stepIf
  split
  · exact hf st
  · exact List.Perm.refl st

/-- Folding gated getter steps permutes the array. -/
lemma foldl_stepIf_perm (steps : List (Bool × (List Card → List Card)))
    (h : ∀ p ∈ steps, ∀ x, (p.2 x).Perm x) :
    ∀ st0, (steps.foldl (fun st p => stepIf p.1 p.2 st) st0).Perm st0 := by
  induction steps with
  | nil => intro st0; exact List.Perm.refl st0
  | cons p l ih =>
    intro st0
    exact (ih (fun q hq => h q (List.mem_cons_of_mem _ hq)) _).trans
      (stepIf_perm _ _ _ (h p (List.mem_cons_self p l)))

/-- The key-card phase permutes the array. -/
lemma afterKeyCards_perm (hand st0 : List Card) :
    (afterKeyCards hand st0).Perm st0 := by
  refine foldl_stepIf_perm _ ?_ st0
  intro p hp
  fin_cases hp <;>
    first
      | exact aceSort_perm
      | exact stepStraightCards_perm hand
      | exact stepDrawCards_perm hand

/-- Unsorted distinct-rank sample hand `['2s', 'As', 'Ks', '5s', 'Ts']`. -/
def sampleUnsorted : List Card :=
  [⟨.n2, .s⟩, ⟨.A, .s⟩, ⟨.K, .s⟩, ⟨.n5, .s⟩, ⟨.T, .s⟩]

/-- C10: evaluating exactly 5 cards mutates the aliased caller array only
by in-place sorts, so afterwards it holds the same 5 cards as a
permutation; and the order generally differs from the caller's, as on the
sample hand (which ends wheel-sorted). -/
theorem constructor_permutes_aliased_array :
    (∀ hand : List Card, hand.length = 5 → (finalCards hand).Perm hand) ∧
    finalCards sampleUnsorted ≠ sampleUnsorted := by
  constructor
  · intro hand _
    exact (afterKeyCards_perm hand _).trans (afterPredicates_perm hand)
  · decide

/-- Witness for C10 at the sample hand. -/
theorem constructor_permutes_aliased_array_witness :
    sampleUnsorted.length = 5 ∧ (finalCards sampleUnsorted).Perm sampleUnsorted :=
  ⟨by decide, constructor_permutes_aliased_array.1 sampleUnsorted (by decide)⟩

/-- The validation loop accepts exactly the lists of well-formed,
pairwise-distinct tokens that also avoid the already-seen set. -/
lemma validateLoop_ok_iff (l : List String) :
    ∀ (i : Nat) (seen : List String),
      validateLoop i seen l = .ok () ↔
        ((∀ s ∈ l, wellFormedToken s) ∧ l.Nodup ∧ ∀ s ∈ l, s ∉ seen) := by
  induction l with
  | nil => intro i seen; simp [validateLoop]
  | cons card rest ih =>
    intro i seen
    rw [validateLoop]
    by_cases h1 : card.length < 2
    · rw [if_pos h1]
      constructor
      · intro h; simp at h
      · rintro ⟨hwf, -, -⟩
        have h2 := (hwf card (List.mem_cons_self _ _)).1
        omega
    · rw [if_neg h1]
      by_cases h2 : card ∈ seen
      · rw [if_pos (by simp [h2])]
        constructor
        · intro h; simp at h
        · rintro ⟨-, -, hs⟩
          exact absurd h2 (hs card (List.mem_cons_self _ _))
      · rw [if_neg (by simp [h2])]
        by_cases h3 : card.dropRight 1 ∈ validRankStrings
        · rw [if_neg (by simp [h3])]
          by_cases h4 : card.takeRight 1 ∈ validSuitStrings
          · rw [if_neg (by simp [h4]), ih]
            constructor
            · rintro ⟨hwf, hnd, hni⟩
              refine ⟨?_, ?_, ?_⟩
              · intro s hs
                rcases List.mem_cons.mp hs with rfl | hs
                · exact ⟨by omega, h3, h4⟩
                · exact hwf s hs
              · exact List.nodup_cons.mpr
                  ⟨fun hmem => (hni card hmem) (List.mem_cons_self _ _), hnd⟩
              · intro s hs
                rcases List.mem_cons.mp hs with rfl | hs
                · exact h2
                · exact fun hm => (hni s hs) (List.mem_cons_of_mem _ hm)
            · rintro ⟨hwf, hnd, hni⟩
              have hcn := List.nodup_cons.mp hnd
              refine ⟨fun s hs => hwf s (List.mem_cons_of_mem _ hs),
                hcn.2, ?_⟩
              intro s hs
              rw [List.mem_cons]
              rintro (rfl | hm)
              · exact hcn.1 hs
              · exact (hni s (List.mem_cons_of_mem _ hs)) hm
          · rw [if_pos (by simp [h4])]
            constructor
            · intro h; simp at h
            · rintro ⟨hwf, -, -⟩
              exact absurd (hwf card (List.mem_cons_self _ _)).2.2 h4
        · rw [if_pos (by simp [h3])]
          constructor
          · intro h; simp at h
          · rintro ⟨hwf, -, -⟩
            exact absurd (hwf card (List.mem_cons_self _ _)).2.1 h3

/-- `#validateCards` succeeds exactly on valid input. -/
lemma validateCards_ok_iff (cards : List String) :
    validateCards cards = .ok () ↔ validInput cards := by
  unfold validateCards validInput
  by_cases h : cards.length < 5
  · rw [if_pos h]
    constructor
    · intro hc; simp at hc
    · rintro ⟨h5, -, -⟩; omega
  · rw [if_neg h, validateLoop_ok_iff]
    constructor
    · rintro ⟨hwf, hnd, -⟩
      exact ⟨by omega, hwf, hnd⟩
    · rintro ⟨-, hwf, hnd⟩
      exact ⟨hwf, hnd, by simp⟩

/-- C7: the evaluator succeeds, returning the complete assembled result of
the pipeline, exactly when the input is a sequence of at least 5 distinct
well-formed card tokens; on any other input it aborts with one of the
distinguishable validation errors before any classification work, so no
partial result is ever produced. -/
theorem validation_error_iff_invalid (cards : List String) (strict : Bool) :
    (evaluateHand cards strict =
        .ok (evaluateAllCombinations (cards.filterMap parseCard) strict) ↔
      validInput cards) ∧
    ((∃ e, evaluateHand cards strict = .error e) ↔ ¬validInput cards) := by
  cases hv : validateCards cards with
  | error e =>
    have hne : ¬validInput cards := by
      intro hvalid
      rw [(validateCards_ok_iff cards).mpr hvalid] at hv
      exact Except.noConfusion hv
    constructor
    · constructor
      · intro h
        rw [evaluateHand, hv] at h
        exact absurd h (by simp)
      · intro h; exact absurd h hne
    · constructor
      · intro _; exact hne
      · intro _; exact ⟨e, by rw [evaluateHand, hv]⟩
  | ok u =>
    cases u
    have hvalid : validInput cards := (validateCards_ok_iff cards).mp hv
    constructor
    · constructor
      · intro _; exact hvalid
      · intro _; rw [evaluateHand, hv]
    · constructor
      · rintro ⟨e, he⟩
        rw [evaluateHand, hv] at he
        exact absurd he (by simp)
      · intro h; exact absurd hvalid h

/-! Histogram facts shared by the classification invariants. -/

instance : IsTotal Nat (fun a b => b ≤ a) := ⟨fun a b => le_total b a⟩

instance : IsTrans Nat (fun a b => b ≤ a) := ⟨fun _ _ _ h h' => le_trans h' h⟩

instance : IsAntisymm Nat (fun a b => b ≤ a) := ⟨fun _ _ h h' => le_antisymm h' h⟩

instance : IsTotal Card aceGE := ⟨fun _ _ => le_total _ _⟩

instance : IsTrans Card aceGE := ⟨fun _ _ _ h h' => le_trans h' h⟩

instance : IsTotal Card wheelGE := ⟨fun _ _ => le_total _ _⟩

instance : IsTrans Card wheelGE := ⟨fun _ _ _ h h' => le_trans h' h⟩

instance : IsTotal (Rank × Nat) (fun a b => rankValue b.1 ≤ rankValue a.1) :=
  ⟨fun _ _ => le_total _ _⟩

instance : IsTrans (Rank × Nat) (fun a b => rankValue b.1 ≤ rankValue a.1) :=
  ⟨fun _ _ _ h h' => le_trans h' h⟩

/-- Sorting does not change the rank multiset. -/
lemma ranksOf_aceSort_perm (hand : List Card) :
    (ranksOf (aceSort hand)).Perm (ranksOf hand) :=
  (aceSort_perm hand).map _

/-- The distinct ranks are those of the unsorted hand, up to order. -/
lemma dedupRanks_perm (hand : List Card) :
    (dedupRanks hand).Perm ((ranksOf hand).dedup) :=
  (ranksOf_aceSort_perm hand).dedup

/-- Membership in the distinct ranks is membership in the hand's ranks. -/
lemma mem_dedupRanks (hand : List Card) (r : Rank) :
    r ∈ dedupRanks hand ↔ r ∈ ranksOf hand := by
  rw [(dedupRanks_perm hand).mem_iff, List.mem_dedup]

/-- The sorted histogram values are the counts of the distinct ranks. -/
lemma countRanks_perm (hand : List Card) :
    (countRanks hand).Perm
      (((ranksOf hand).dedup).map (fun r => (ranksOf hand).count r)) := by
  refine (List.perm_insertionSort _ _).trans ?_
  have h1 : ((dedupRanks hand).map (rankCount hand)).Perm
      (((ranksOf hand).dedup).map (rankCount hand)) :=
    (dedupRanks_perm hand).map _
  exact h1

/-- The histogram values sum to the hand size. -/
lemma countRanks_sum (hand : List Card) : (countRanks hand).sum = hand.length := by
  rw [(countRanks_perm hand).sum_eq, List.sum_map_count_dedup_eq_length]
  simp [ranksOf]

/-- Histogram values are counts of ranks present in the hand. -/
lemma mem_countRanks (hand : List Card) (x : Nat) :
    x ∈ countRanks hand ↔ ∃ r ∈ ranksOf hand, (ranksOf hand).count r = x := by
  rw [(countRanks_perm hand).mem_iff, List.mem_map]
  constructor
  · rintro ⟨r, hr, hx⟩
    exact ⟨r, List.mem_dedup.mp hr, hx⟩
  · rintro ⟨r, hr, hx⟩
    exact ⟨r, List.mem_dedup.mpr hr, hx⟩

/-- Histogram values are positive. -/
lemma countRanks_pos (hand : List Card) (x : Nat) (hx : x ∈ countRanks hand) :
    1 ≤ x := by
  obtain ⟨r, hr, hcount⟩ := (mem_countRanks hand x).mp hx
  have := List.count_pos_iff.mpr hr
  omega

/-- In a duplicate-free hand no rank occurs more than four times (there are
only four suits). -/
lemma rankCount_le_four (hand : List Card) (hnd : hand.Nodup) (r : Rank) :
    (ranksOf hand).count r ≤ 4 := by
  have hcount : (ranksOf hand).count r =
      (hand.filter (fun c => c.rank == r)).length := by
    simp [ranksOf, List.count, List.countP_map, Function.comp_def,
      List.countP_eq_length_filter, List.filter_map, List.length_map]
  rw [hcount]
  have hsuits : ((hand.filter (fun c => c.rank == r)).map Card.suit).Nodup := by
    refine List.Nodup.map_on ?_ (hnd.filter _)
    intro x hx y hy hxy
    have hxr : x.rank = r := by
      have := List.of_mem_filter hx; simpa using this
    have hyr : y.rank = r := by
      have := List.of_mem_filter hy; simpa using this
    cases x; cases y
    simp_all
  have hlen := hsuits.length_le_card
  simpa using hlen

/-- A descending list of values in `[1, 4]` summing to 5 is one of the six
partition shapes. -/
lemma shape_cases (L : List Nat) (hs : L.Sorted (fun a b => b ≤ a))
    (hsum : L.sum = 5) (hpos : ∀ x ∈ L, 1 ≤ x) (hle : ∀ x ∈ L, x ≤ 4) :
    L = [4, 1] ∨ L = [3, 2] ∨ L = [3, 1, 1] ∨ L = [2, 2, 1] ∨
      L = [2, 1, 1, 1] ∨ L = [1, 1, 1, 1, 1] := by
  rcases L with - | ⟨a, - | ⟨b, - | ⟨c, - | ⟨d, - | ⟨e, - | ⟨f, t⟩⟩⟩⟩⟩⟩
  · simp at hsum
  · simp at hsum hle
    omega
  · simp [List.sorted_cons] at hs hsum hpos hle ⊢
    omega
  · simp [List.sorted_cons] at hs hsum hpos hle ⊢
    omega
  · simp [List.sorted_cons] at hs hsum hpos hle ⊢
    omega
  · simp [List.sorted_cons] at hs hsum hpos hle ⊢
    omega
  · exfalso
    simp [List.sorted_cons] at hsum hpos
    have ht : 0 ≤ t.sum := Nat.zero_le _
    omega

/-- The histogram shape of a valid 5-card hand. -/
lemma countRanks_shape (hand : List Card) (h5 : hand.length = 5)
    (hnd : hand.Nodup) :
    countRanks hand = [4, 1] ∨ countRanks hand = [3, 2] ∨
      countRanks hand = [3, 1, 1] ∨ countRanks hand = [2, 2, 1] ∨
      countRanks hand = [2, 1, 1, 1] ∨ countRanks hand = [1, 1, 1, 1, 1] := by
  refine shape_cases _ (List.sorted_insertionSort _ _) ?_ ?_ ?_
  · rw [countRanks_sum, h5]
  · exact countRanks_pos hand
  · intro x hx
    obtain ⟨r, -, hcount⟩ := (mem_countRanks hand x).mp hx
    rw [← hcount]
    exact rankCount_le_four hand hnd r

/-- `#isPair` holds exactly on the `2,1,1,1` histogram shape. -/
lemma isPair_iff_shape (hand : List Card) (h5 : hand.length = 5)
    (hnd : hand.Nodup) :
    isPair hand = true ↔ countRanks hand = [2, 1, 1, 1] := by
  rcases countRanks_shape hand h5 hnd with hc | hc | hc | hc | hc | hc <;>
    simp [isPair, hc]

/-- `#isTwoPair` holds exactly on the `2,2,1` histogram shape. -/
lemma isTwoPair_iff_shape (hand : List Card) (h5 : hand.length = 5)
    (hnd : hand.Nodup) :
    isTwoPair hand = true ↔ countRanks hand = [2, 2, 1] := by
  rcases countRanks_shape hand h5 hnd with hc | hc | hc | hc | hc | hc <;>
    simp [isTwoPair, hc]

/-- `#isThreeOfAKind` holds exactly on the `3,1,1` histogram shape. -/
lemma isThreeOfAKind_iff_shape (hand : List Card) (h5 : hand.length = 5)
    (hnd : hand.Nodup) :
    isThreeOfAKind hand = true ↔ countRanks hand = [3, 1, 1] := by
  rcases countRanks_shape hand h5 hnd with hc | hc | hc | hc | hc | hc <;>
    simp [isThreeOfAKind, hc]

/-- `#isFullHouse` holds exactly on the `3,2` histogram shape. -/
lemma isFullHouse_iff_shape (hand : List Card) (h5 : hand.length = 5)
    (hnd : hand.Nodup) :
    isFullHouse hand = true ↔ countRanks hand = [3, 2] := by
  rcases countRanks_shape hand h5 hnd with hc | hc | hc | hc | hc | hc <;>
    simp [isFullHouse, hc]

/-- `#isFourOfAKind` holds exactly on the `4,1` histogram shape. -/
lemma isFourOfAKind_iff_shape (hand : List Card) (h5 : hand.length = 5)
    (hnd : hand.Nodup) :
    isFourOfAKind hand = true ↔ countRanks hand = [4, 1] := by
  rcases countRanks_shape hand h5 hnd with hc | hc | hc | hc | hc | hc <;>
    simp [isFourOfAKind, hc]

/-- All-distinct ranks are equivalent to the all-ones histogram shape. -/
lemma ranks_nodup_iff_allones (hand : List Card) (h5 : hand.length = 5) :
    (ranksOf hand).Nodup ↔ countRanks hand = [1, 1, 1, 1, 1] := by
  constructor
  · intro hnd
    have h1 : countRanks hand = List.replicate 5 1 := by
      rw [List.eq_replicate_iff]
      constructor
      · have hlen : (countRanks hand).length =
            ((ranksOf hand).dedup).length := by
          rw [(countRanks_perm hand).length_eq, List.length_map]
        rw [hlen, List.dedup_eq_self.mpr hnd]
        simp [ranksOf, h5]
      · intro b hb
        obtain ⟨r, hr, hcount⟩ := (mem_countRanks hand b).mp hb
        rw [← hcount]
        exact List.count_eq_one_of_mem hnd hr
    exact h1
  · intro h
    rw [List.nodup_iff_count_le_one]
    intro r
    by_cases hr : r ∈ ranksOf hand
    · have hmem : (ranksOf hand).count r ∈ countRanks hand :=
        (mem_countRanks hand _).mpr ⟨r, hr, rfl⟩
      rw [h] at hmem
      simp at hmem
      omega
    · rw [List.count_eq_zero_of_not_mem hr]
      omega

/-- In a duplicate-free flush all five ranks are distinct. -/
lemma isFlush_ranks_nodup (hand : List Card) (h5 : hand.length = 5)
    (hnd : hand.Nodup) (hf : isFlush hand = true) : (ranksOf hand).Nodup := by
  unfold isFlush someSuitCount at hf
  rw [List.any_eq_true] at hf
  obtain ⟨st, -, hst⟩ := hf
  rw [beq_iff_eq] at hst
  have hall : ∀ c ∈ hand, c.suit = st := by
    have hlen : (hand.map Card.suit).length = 5 := by simp [h5]
    have hcl : (hand.map Card.suit).count st = (hand.map Card.suit).length := by
      rw [hlen]; exact hst
    have := List.count_eq_length.mp hcl
    intro c hc
    exact (this c.suit (List.mem_map_of_mem _ hc)).symm
  refine List.Nodup.map_on ?_ hnd
  intro x hx y hy hxy
  have h1 := hall x hx
  have h2 := hall y hy
  cases x; cases y
  simp_all

/-- A duplicate-free flush forces the all-ones histogram shape. -/
lemma isFlush_shape (hand : List Card) (h5 : hand.length = 5)
    (hnd : hand.Nodup) (hf : isFlush hand = true) :
    countRanks hand = [1, 1, 1, 1, 1] :=
  (ranks_nodup_iff_allones hand h5).mp (isFlush_ranks_nodup hand h5 hnd hf)

/-- The ten primary classification entries of an evaluation in the claim's
reading: the ten base flags, with flush and straight discounted when they
co-occur as components of a true royal flush or straight flush. -/
def primaryFlags (e : Evaluation) : List Bool :=
  [e.flags .isRoyalFlush, e.flags .isStraightFlush, e.flags .isFourOfAKind,
   e.flags .isFullHouse,
   e.flags .isFlush && !(e.flags .isRoyalFlush || e.flags .isStraightFlush),
   e.flags .isStraight && !(e.flags .isRoyalFlush || e.flags .isStraightFlush),
   e.flags .isThreeOfAKind, e.flags .isTwoPair, e.flags .isPair,
   e.flags .isHighCard]

/-- C3: every valid 5-card hand evaluated in non-strict mode has exactly
one true primary classification among the ten base categories, counting a
true flush or straight only when it is not subsumed by a true royal or
straight flush. -/
theorem exactly_one_primary_classification (hand : List Card)
    (h5 : hand.length = 5) (hnd : hand.Nodup) :
    (primaryFlags (evaluateSingleHand hand false)).count true = 1 := by
  have he : evaluateSingleHand hand false = nonStrictEval hand := rfl
  rw [he]
  rcases countRanks_shape hand h5 hnd with hc | hc | hc | hc | hc | hc
  all_goals
    try {
      have hfl : isFlush hand = false := by
        cases hfv : isFlush hand
        · rfl
        · have := isFlush_shape hand h5 hnd hfv
          rw [hc] at this
          simp at this
      simp [primaryFlags, nonStrictEval, flagOf, isRoyalFlush,
        isStraightFlush, isHighCard, isStraight, isStraightWheel,
        pairOrBetter, isPair, isTwoPair, isThreeOfAKind, isFullHouse,
        isFourOfAKind, hc, hfl]
    }
  -- remaining goal: the all-ones shape
  have hp : pairOrBetter hand = false := by
    simp [pairOrBetter, isPair, isTwoPair, isThreeOfAKind, isFullHouse,
      isFourOfAKind, hc]
  cases hfv : isFlush hand <;> cases hsv : isStraight hand <;>
    cases hrf : isRoyalFlush hand
  · simp [primaryFlags, nonStrictEval, flagOf, isStraightFlush, isHighCard,
      isPair, isTwoPair, isThreeOfAKind, isFullHouse, isFourOfAKind, hc,
      hfv, hsv, hrf]
  · rw [isRoyalFlush, hfv] at hrf; simp at hrf
  · simp [primaryFlags, nonStrictEval, flagOf, isStraightFlush, isHighCard,
      isPair, isTwoPair, isThreeOfAKind, isFullHouse, isFourOfAKind, hc,
      hfv, hsv, hrf]
  · rw [isRoyalFlush, hfv] at hrf; simp at hrf
  · simp [primaryFlags, nonStrictEval, flagOf, isStraightFlush, isHighCard,
      isPair, isTwoPair, isThreeOfAKind, isFullHouse, isFourOfAKind, hc,
      hfv, hsv, hrf]
  · rw [isRoyalFlush, hsv] at hrf; simp at hrf
  · simp [primaryFlags, nonStrictEval, flagOf, isStraightFlush, isHighCard,
      isPair, isTwoPair, isThreeOfAKind, isFullHouse, isFourOfAKind, hc,
      hfv, hsv, hrf]
  · simp [primaryFlags, nonStrictEval, flagOf, isStraightFlush, isHighCard,
      isPair, isTwoPair, isThreeOfAKind, isFullHouse, isFourOfAKind, hc,
      hfv, hsv, hrf]

/-- Witness for C3 at the pair hand. -/
theorem exactly_one_primary_classification_witness :
    (samplePairHand.length = 5 ∧ samplePairHand.Nodup) ∧
    (primaryFlags (evaluateSingleHand samplePairHand false)).count true = 1 :=
  ⟨⟨by decide, by decide⟩,
    exactly_one_primary_classification samplePairHand (by decide) (by decide)⟩

/-- Ace-high rank values are injective. -/
lemma rankValue_injective (r r' : Rank) (h : rankValue r = rankValue r') :
    r = r' := by
  revert h
  cases r <;> cases r' <;> decide

/-- In a list sorted descending by a value, the head's value dominates. -/
lemma sorted_head_max {α : Type} (v : α → Nat) (l : List α)
    (hs : l.Sorted (fun a b => v b ≤ v a)) (c : α) (hc : c ∈ l) (d : α) :
    v c ≤ v (l.headD d) := by
  cases l with
  | nil => simp at hc
  | cons a t =>
    rcases List.mem_cons.mp hc with rfl | hm
    · simp
    · exact (List.sorted_cons.mp hs).1 c hm

/-- In a list sorted descending by a value, the last value is dominated. -/
lemma sorted_last_min {α : Type} (v : α → Nat) :
    ∀ (l : List α), l.Sorted (fun a b => v b ≤ v a) →
      ∀ c ∈ l, ∀ d, v (l.getLastD d) ≤ v c := by
  intro l
  induction l with
  | nil => intro _ c hc; simp at hc
  | cons a t ih =>
    intro hs c hc d
    cases t with
    | nil =>
      rcases List.mem_cons.mp hc with rfl | hm
      · simp
      · simp at hm
    | cons b t' =>
      have hhead := (List.sorted_cons.mp hs).1
      have hs' := (List.sorted_cons.mp hs).2
      have hgl : (a :: b :: t').getLastD d = (b :: t').getLastD b := by
        obtain ⟨x, hx⟩ : ∃ x, (b :: t').getLast? = some x := by
          cases h : (b :: t').getLast? with
          | none => exact absurd h (by simp)
          | some x => exact ⟨x, rfl⟩
        simp [List.getLastD_cons, List.getLastD_eq_getLast?, hx]
      rcases List.mem_cons.mp hc with rfl | hm
      · rw [hgl]
        exact le_trans (ih hs' b (List.mem_cons_self _ _) b)
          (hhead b (List.mem_cons_self _ _))
      · rw [hgl]
        exact ih hs' c hm b

/-- The rank-sorted histogram entries up to order. -/
lemma rankCountsSorted_perm (hand : List Card) :
    (rankCountsSorted hand).Perm
      ((dedupRanks hand).map (fun r => (r, rankCount hand r))) :=
  List.perm_insertionSort _ _

/-- Membership in the rank-sorted histogram entries. -/
lemma mem_rankCountsSorted (hand : List Card) (p : Rank × Nat) :
    p ∈ rankCountsSorted hand ↔
      p.1 ∈ ranksOf hand ∧ p.2 = rankCount hand p.1 := by
  rw [(rankCountsSorted_perm hand).mem_iff, List.mem_map]
  constructor
  · rintro ⟨r, hr, rfl⟩
    exact ⟨(mem_dedupRanks hand r).mp hr, rfl⟩
  · rintro ⟨h1, h2⟩
    refine ⟨p.1, (mem_dedupRanks hand _).mpr h1, ?_⟩
    cases p
    simp_all

/-- The rank-sorted entry list has the histogram's length. -/
lemma rankCountsSorted_length (hand : List Card) :
    (rankCountsSorted hand).length = (countRanks hand).length := by
  rw [(rankCountsSorted_perm hand).length_eq, (countRanks_perm hand).length_eq,
    List.length_map, List.length_map, (dedupRanks_perm hand).length_eq]

/-- The counts of the rank-sorted entries are the histogram, up to order. -/
lemma rankCountsSorted_snd_perm (hand : List Card) :
    ((rankCountsSorted hand).map Prod.snd).Perm (countRanks hand) := by
  refine ((rankCountsSorted_perm hand).map Prod.snd).trans ?_
  rw [List.map_map]
  exact (List.perm_insertionSort _ _).symm

/-- The rank-sorted entry list of a nonempty hand is nonempty. -/
lemma rankCountsSorted_ne_nil (hand : List Card) (hne : hand ≠ []) :
    rankCountsSorted hand ≠ [] := by
  intro h
  have hlen := rankCountsSorted_length hand
  rw [h] at hlen
  have h2 : (countRanks hand).length = ((ranksOf hand).dedup).length := by
    rw [(countRanks_perm hand).length_eq, List.length_map]
  rw [h2] at hlen
  cases hh : hand with
  | nil => exact hne hh
  | cons a t =>
    rw [hh] at hlen
    have hmem : a.rank ∈ (ranksOf (a :: t)).dedup :=
      List.mem_dedup.mpr (by simp [ranksOf])
    cases hd : (ranksOf (a :: t)).dedup with
    | nil => rw [hd] at hmem; simp at hmem
    | cons x s => rw [hd] at hlen; simp at hlen

/-- The first rank-sorted entry carries the rank of the first card of the
ace-high sorted hand (both are the unique maximal-value rank). -/
lemma rankCountsSorted_head_rank (hand : List Card) (hne : hand ≠ []) :
    ((rankCountsSorted hand).headD (Rank.A, 0)).1 =
      ((aceSort hand).headD dummyCard).rank := by
  have hsortA : (aceSort hand).Sorted
      (fun a b : Card => rankValue b.rank ≤ rankValue a.rank) :=
    List.sorted_insertionSort aceGE hand
  have hsortR : (rankCountsSorted hand).Sorted
      (fun a b : Rank × Nat => rankValue b.1 ≤ rankValue a.1) :=
    List.sorted_insertionSort _ _
  have haneA : aceSort hand ≠ [] := by
    intro h
    exact hne (List.eq_nil_of_length_eq_zero
      (by rw [← (aceSort_perm hand).length_eq, h]; rfl))
  have haneR : rankCountsSorted hand ≠ [] := rankCountsSorted_ne_nil hand hne
  set a0 := (aceSort hand).headD dummyCard with ha0
  set p0 := (rankCountsSorted hand).headD (Rank.A, 0) with hp0
  have ha0mem : a0 ∈ hand := by
    have : a0 ∈ aceSort hand := by
      cases h : aceSort hand with
      | nil => exact absurd h haneA
      | cons x t => rw [ha0, h]; simp
    exact (aceSort_perm hand).mem_iff.mp this
  have hp0mem : p0 ∈ rankCountsSorted hand := by
    cases h : rankCountsSorted hand with
    | nil => exact absurd h haneR
    | cons x t => rw [hp0, h]; simp
  have hp0rank := (mem_rankCountsSorted hand p0).mp hp0mem
  -- the head entry's rank value dominates the head card's rank value
  have h1 : rankValue a0.rank ≤ rankValue p0.1 := by
    have hmem : (a0.rank, rankCount hand a0.rank) ∈ rankCountsSorted hand :=
      (mem_rankCountsSorted hand _).mpr
        ⟨List.mem_map_of_mem _ ha0mem, rfl⟩
    exact sorted_head_max (fun p : Rank × Nat => rankValue p.1) _
      hsortR _ hmem _
  -- and conversely
  have h2 : rankValue p0.1 ≤ rankValue a0.rank := by
    obtain ⟨c, hc, hcr⟩ := List.mem_map.mp hp0rank.1
    have := sorted_head_max (fun c : Card => rankValue c.rank) _ hsortA c
      ((aceSort_perm hand).mem_iff.mpr hc) dummyCard
    rw [hcr] at this
    exact this
  exact rankValue_injective _ _ (le_antisymm h2 h1)

/-- The last rank-sorted entry carries the rank of the last card of the
ace-high sorted hand (both are the unique minimal-value rank). -/
lemma rankCountsSorted_last_rank (hand : List Card) (hne : hand ≠ []) :
    ((rankCountsSorted hand).getLastD (Rank.A, 0)).1 =
      ((aceSort hand).getLastD dummyCard).rank := by
  have hsortA : (aceSort hand).Sorted
      (fun a b : Card => rankValue b.rank ≤ rankValue a.rank) :=
    List.sorted_insertionSort aceGE hand
  have hsortR : (rankCountsSorted hand).Sorted
      (fun a b : Rank × Nat => rankValue b.1 ≤ rankValue a.1) :=
    List.sorted_insertionSort _ _
  have haneA : aceSort hand ≠ [] := by
    intro h
    exact hne (List.eq_nil_of_length_eq_zero
      (by rw [← (aceSort_perm hand).length_eq, h]; rfl))
  have haneR : rankCountsSorted hand ≠ [] := rankCountsSorted_ne_nil hand hne
  set a0 := (aceSort hand).getLastD dummyCard with ha0
  set p0 := (rankCountsSorted hand).getLastD (Rank.A, 0) with hp0
  have ha0mem : a0 ∈ hand := by
    have : a0 ∈ aceSort hand := by
      rw [ha0, List.getLastD_eq_getLast?]
      cases h : (aceSort hand).getLast? with
      | none => exact absurd (by simpa using h) haneA
      | some x => simpa using List.mem_of_getLast?_eq_some h
    exact (aceSort_perm hand).mem_iff.mp this
  have hp0mem : p0 ∈ rankCountsSorted hand := by
    rw [hp0, List.getLastD_eq_getLast?]
    cases h : (rankCountsSorted hand).getLast? with
    | none => exact absurd (by simpa using h) haneR
    | some x => simpa using List.mem_of_getLast?_eq_some h
  have hp0rank := (mem_rankCountsSorted hand p0).mp hp0mem
  have h1 : rankValue p0.1 ≤ rankValue a0.rank := by
    have hmem : (a0.rank, rankCount hand a0.rank) ∈ rankCountsSorted hand :=
      (mem_rankCountsSorted hand _).mpr
        ⟨List.mem_map_of_mem _ ha0mem, rfl⟩
    exact sorted_last_min (fun p : Rank × Nat => rankValue p.1) _
      hsortR _ hmem _
  have h2 : rankValue a0.rank ≤ rankValue p0.1 := by
    obtain ⟨c, hc, hcr⟩ := List.mem_map.mp hp0rank.1
    have := sorted_last_min (fun c : Card => rankValue c.rank) _ hsortA c
      ((aceSort_perm hand).mem_iff.mpr hc) dummyCard
    rw [hcr] at this
    exact this
  exact rankValue_injective _ _ (le_antisymm h1 h2)

/-- The head of a nonempty list with a default is a member. -/
lemma headD_mem {α : Type} (l : List α) (hne : l ≠ []) (d : α) :
    l.headD d ∈ l := by
  cases l with
  | nil => exact absurd rfl hne
  | cons a t => simp

/-- The last of a nonempty list with a default is a member. -/
lemma getLastD_mem {α : Type} (l : List α) (hne : l ≠ []) (d : α) :
    l.getLastD d ∈ l := by
  rw [List.getLastD_eq_getLast?]
  cases h : l.getLast? with
  | none => exact absurd (by simpa using h) hne
  | some x => simpa using List.mem_of_getLast?_eq_some h

/-- The count of the top card's rank is the first rank-sorted entry's. -/
lemma rankCount_head_eq (hand : List Card) (hne : hand ≠ []) :
    rankCount hand (((aceSort hand).headD dummyCard).rank) =
      ((rankCountsSorted hand).headD (Rank.A, 0)).2 := by
  have hp0 := (mem_rankCountsSorted hand _).mp
    (headD_mem _ (rankCountsSorted_ne_nil hand hne) (Rank.A, 0))
  rw [← rankCountsSorted_head_rank hand hne]
  exact hp0.2.symm

/-- The count of the bottom card's rank is the last rank-sorted entry's. -/
lemma rankCount_last_eq (hand : List Card) (hne : hand ≠ []) :
    rankCount hand (((aceSort hand).getLastD dummyCard).rank) =
      ((rankCountsSorted hand).getLastD (Rank.A, 0)).2 := by
  have hp0 := (mem_rankCountsSorted hand _).mp
    (getLastD_mem _ (rankCountsSorted_ne_nil hand hne) (Rank.A, 0))
  rw [← rankCountsSorted_last_rank hand hne]
  exact hp0.2.symm

/-- Destructuring of a length-3 list. -/
lemma list_len3 {α : Type} (l : List α) (h : l.length = 3) :
    ∃ a b c, l = [a, b, c] := by
  rcases l with - | ⟨a, - | ⟨b, - | ⟨c, - | ⟨d, t⟩⟩⟩⟩
  · simp at h
  · simp at h
  · simp at h
  · exact ⟨a, b, c, rfl⟩
  · simp at h

/-- Destructuring of a length-4 list. -/
lemma list_len4 {α : Type} (l : List α) (h : l.length = 4) :
    ∃ a b c d, l = [a, b, c, d] := by
  rcases l with - | ⟨a, - | ⟨b, - | ⟨c, - | ⟨d, - | ⟨e, t⟩⟩⟩⟩⟩
  · simp at h
  · simp at h
  · simp at h
  · simp at h
  · exact ⟨a, b, c, d, rfl⟩
  · simp at h

/-- A pair hand has exactly one of the three pair-position labels. -/
lemma pair_positional_count (hand : List Card) (h5 : hand.length = 5)
    (hnd : hand.Nodup) (hp : isPair hand = true) :
    ([isTopPair hand, isMiddlePair hand, isBottomPair hand] :
      List Bool).count true = 1 := by
  have hne : hand ≠ [] := by intro h; rw [h] at h5; simp at h5
  have hshape := (isPair_iff_shape hand h5 hnd).mp hp
  have htp : isTwoPair hand = false := by simp [isTwoPair, hshape]
  have hlen : (rankCountsSorted hand).length = 4 := by
    rw [rankCountsSorted_length, hshape]; rfl
  obtain ⟨p0, p1, p2, p3, hr⟩ := list_len4 _ hlen
  have hsnd : ([p0.2, p1.2, p2.2, p3.2] : List Nat).Perm [2, 1, 1, 1] := by
    have := rankCountsSorted_snd_perm hand
    rw [hr, hshape] at this
    simpa using this
  have hmem : ∀ x ∈ ([p0.2, p1.2, p2.2, p3.2] : List Nat), x = 2 ∨ x = 1 := by
    intro x hx
    have := hsnd.mem_iff.mp hx
    simp at this
    tauto
  have hcount2 : ([p0.2, p1.2, p2.2, p3.2] : List Nat).count 2 = 1 := by
    rw [hsnd.count_eq]; rfl
  have hTop : isTopPair hand = (p0.2 == 2) := by
    unfold isTopPair
    rw [hp, rankCount_head_eq hand hne, hr]
    simp
  have hBot : isBottomPair hand = (p3.2 == 2) := by
    unfold isBottomPair
    rw [hp, rankCount_last_eq hand hne, hr]
    simp
  have hMid : isMiddlePair hand = (p1.2 == 2 || p2.2 == 2) := by
    unfold isMiddlePair
    rw [hp, htp, hr]
    simp
  rw [hTop, hMid, hBot]
  have h0 := hmem p0.2 (by simp)
  have h1 := hmem p1.2 (by simp)
  have h2 := hmem p2.2 (by simp)
  have h3 := hmem p3.2 (by simp)
  rcases h0 with h0 | h0 <;> rcases h1 with h1 | h1 <;>
    rcases h2 with h2 | h2 <;> rcases h3 with h3 | h3 <;>
    rw [h0, h1, h2, h3] at hcount2 ⊢ <;> simp_all

/-- A two-pair hand has exactly one of the three two-pair-position labels. -/
lemma twoPair_positional_count (hand : List Card) (h5 : hand.length = 5)
    (hnd : hand.Nodup) (hp : isTwoPair hand = true) :
    ([isTopAndMiddlePair hand, isTopAndBottomPair hand,
      isMiddleAndBottomPair hand] : List Bool).count true = 1 := by
  have hshape := (isTwoPair_iff_shape hand h5 hnd).mp hp
  have hlen : (rankCountsSorted hand).length = 3 := by
    rw [rankCountsSorted_length, hshape]; rfl
  obtain ⟨p0, p1, p2, hr⟩ := list_len3 _ hlen
  have hsnd : ([p0.2, p1.2, p2.2] : List Nat).Perm [2, 2, 1] := by
    have := rankCountsSorted_snd_perm hand
    rw [hr, hshape] at this
    simpa using this
  have hmem : ∀ x ∈ ([p0.2, p1.2, p2.2] : List Nat), x = 2 ∨ x = 1 := by
    intro x hx
    have := hsnd.mem_iff.mp hx
    simp at this
    tauto
  have hcount1 : ([p0.2, p1.2, p2.2] : List Nat).count 1 = 1 := by
    rw [hsnd.count_eq]; rfl
  have hTM : isTopAndMiddlePair hand = (p0.2 == 2 && p1.2 == 2) := by
    unfold isTopAndMiddlePair
    rw [hp, hr]
    simp
  have hTB : isTopAndBottomPair hand = (p0.2 == 2 && p2.2 == 2) := by
    unfold isTopAndBottomPair
    rw [hp, hr]
    simp
  have hMB : isMiddleAndBottomPair hand = (p1.2 == 2 && p2.2 == 2) := by
    unfold isMiddleAndBottomPair
    rw [hp, hr]
    simp
  rw [hTM, hTB, hMB]
  have h0 := hmem p0.2 (by simp)
  have h1 := hmem p1.2 (by simp)
  have h2 := hmem p2.2 (by simp)
  rcases h0 with h0 | h0 <;> rcases h1 with h1 | h1 <;>
    rcases h2 with h2 | h2 <;>
    rw [h0, h1, h2] at hcount1 ⊢ <;> simp_all

/-- A trips hand has exactly one of the three trips-position labels. -/
lemma trips_positional_count (hand : List Card) (h5 : hand.length = 5)
    (hnd : hand.Nodup) (hp : isThreeOfAKind hand = true) :
    ([isTopThreeOfAKind hand, isMiddleThreeOfAKind hand,
      isBottomThreeOfAKind hand] : List Bool).count true = 1 := by
  have hne : hand ≠ [] := by intro h; rw [h] at h5; simp at h5
  have hshape := (isThreeOfAKind_iff_shape hand h5 hnd).mp hp
  have hlen : (rankCountsSorted hand).length = 3 := by
    rw [rankCountsSorted_length, hshape]; rfl
  obtain ⟨p0, p1, p2, hr⟩ := list_len3 _ hlen
  have hsnd : ([p0.2, p1.2, p2.2] : List Nat).Perm [3, 1, 1] := by
    have := rankCountsSorted_snd_perm hand
    rw [hr, hshape] at this
    simpa using this
  have hmem : ∀ x ∈ ([p0.2, p1.2, p2.2] : List Nat), x = 3 ∨ x = 1 := by
    intro x hx
    have := hsnd.mem_iff.mp hx
    simp at this
    tauto
  have hcount3 : ([p0.2, p1.2, p2.2] : List Nat).count 3 = 1 := by
    rw [hsnd.count_eq]; rfl
  have hTop : isTopThreeOfAKind hand = (p0.2 == 3) := by
    unfold isTopThreeOfAKind
    rw [hp, rankCount_head_eq hand hne, hr]
    simp
  have hBot : isBottomThreeOfAKind hand = (p2.2 == 3) := by
    unfold isBottomThreeOfAKind
    rw [hp, rankCount_last_eq hand hne, hr]
    simp
  have hMid : isMiddleThreeOfAKind hand = (p1.2 == 3) := by
    unfold isMiddleThreeOfAKind
    rw [hp, hr]
    simp
  rw [hTop, hMid, hBot]
  have h0 := hmem p0.2 (by simp)
  have h1 := hmem p1.2 (by simp)
  have h2 := hmem p2.2 (by simp)
  rcases h0 with h0 | h0 <;> rcases h1 with h1 | h1 <;>
    rcases h2 with h2 | h2 <;>
    rw [h0, h1, h2] at hcount3 ⊢ <;> simp_all

/-- The C8 property of one hand's non-strict evaluation: each base category
(pair, two pair, three of a kind) has exactly one of its three positional
labels true when the base flag is true, and all three false otherwise. -/
def positionalExclusive (hand : List Card) : Prop :=
  ((evaluateSingleHand hand false).flags Category.isPair = true →
    ([(evaluateSingleHand hand false).flags Category.isTopPair,
      (evaluateSingleHand hand false).flags Category.isMiddlePair,
      (evaluateSingleHand hand false).flags Category.isBottomPair] :
        List Bool).count true = 1) ∧
  ((evaluateSingleHand hand false).flags Category.isPair = false →
    (evaluateSingleHand hand false).flags Category.isTopPair = false ∧
    (evaluateSingleHand hand false).flags Category.isMiddlePair = false ∧
    (evaluateSingleHand hand false).flags Category.isBottomPair = false) ∧
  ((evaluateSingleHand hand false).flags Category.isTwoPair = true →
    ([(evaluateSingleHand hand false).flags Category.isTopAndMiddlePair,
      (evaluateSingleHand hand false).flags Category.isTopAndBottomPair,
      (evaluateSingleHand hand false).flags Category.isMiddleAndBottomPair] :
        List Bool).count true = 1) ∧
  ((evaluateSingleHand hand false).flags Category.isTwoPair = false →
    (evaluateSingleHand hand false).flags Category.isTopAndMiddlePair = false ∧
    (evaluateSingleHand hand false).flags Category.isTopAndBottomPair = false ∧
    (evaluateSingleHand hand false).flags Category.isMiddleAndBottomPair
      = false) ∧
  ((evaluateSingleHand hand false).flags Category.isThreeOfAKind = true →
    ([(evaluateSingleHand hand false).flags Category.isTopThreeOfAKind,
      (evaluateSingleHand hand false).flags Category.isMiddleThreeOfAKind,
      (evaluateSingleHand hand false).flags Category.isBottomThreeOfAKind] :
        List Bool).count true = 1) ∧
  ((evaluateSingleHand hand false).flags Category.isThreeOfAKind = false →
    (evaluateSingleHand hand false).flags Category.isTopThreeOfAKind = false ∧
    (evaluateSingleHand hand false).flags Category.isMiddleThreeOfAKind
      = false ∧
    (evaluateSingleHand hand false).flags Category.isBottomThreeOfAKind
      = false)

/-- C8: for every valid 5-card hand evaluated in non-strict mode, exactly
one positional label accompanies each true base flag among pair, two pair
and three of a kind, and none accompanies a false base flag. -/
theorem positional_labels_exclusive (hand : List Card) (h5 : hand.length = 5)
    (hnd : hand.Nodup) : positionalExclusive hand := by
  refine ⟨?_, ?_, ?_, ?_, ?_, ?_⟩
  · intro hp
    exact pair_positional_count hand h5 hnd hp
  · intro hp
    have hp' : isPair hand = false := hp
    refine ⟨?_, ?_, ?_⟩
    · show isTopPair hand = false
      simp [isTopPair, hp']
    · show isMiddlePair hand = false
      simp [isMiddlePair, hp']
    · show isBottomPair hand = false
      simp [isBottomPair, hp']
  · intro hp
    exact twoPair_positional_count hand h5 hnd hp
  · intro hp
    have hp' : isTwoPair hand = false := hp
    refine ⟨?_, ?_, ?_⟩
    · show isTopAndMiddlePair hand = false
      simp [isTopAndMiddlePair, hp']
    · show isTopAndBottomPair hand = false
      simp [isTopAndBottomPair, hp']
    · show isMiddleAndBottomPair hand = false
      simp [isMiddleAndBottomPair, hp']
  · intro hp
    exact trips_positional_count hand h5 hnd hp
  · intro hp
    have hp' : isThreeOfAKind hand = false := hp
    refine ⟨?_, ?_, ?_⟩
    · show isTopThreeOfAKind hand = false
      simp [isTopThreeOfAKind, hp']
    · show isMiddleThreeOfAKind hand = false
      simp [isMiddleThreeOfAKind, hp']
    · show isBottomThreeOfAKind hand = false
      simp [isBottomThreeOfAKind, hp']

/-- Witness for C8 at the pair hand. -/
theorem positional_labels_exclusive_witness :
    (samplePairHand.length = 5 ∧ samplePairHand.Nodup) ∧
      positionalExclusive samplePairHand :=
  ⟨⟨by decide, by decide⟩,
    positional_labels_exclusive samplePairHand (by decide) (by decide)⟩

/-! Non-emptiness and membership facts about the key-card getters. -/

/-- Sorting preserves membership (ace order). -/
lemma mem_aceSort (l : List Card) (x : Card) : x ∈ aceSort l ↔ x ∈ l :=
  (aceSort_perm l).mem_iff

/-- Sorting preserves membership (wheel order). -/
lemma mem_wheelSort (l : List Card) (x : Card) : x ∈ wheelSort l ↔ x ∈ l :=
  (wheelSort_perm l).mem_iff

/-- Sorting preserves non-emptiness (ace order). -/
lemma aceSort_ne_nil (l : List Card) (h : l ≠ []) : aceSort l ≠ [] := by
  intro hs
  refine h (List.eq_nil_of_length_eq_zero ?_)
  rw [← (aceSort_perm l).length_eq, hs]
  rfl

/-- Sorting preserves non-emptiness (wheel order). -/
lemma wheelSort_ne_nil (l : List Card) (h : l ≠ []) : wheelSort l ≠ [] := by
  intro hs
  refine h (List.eq_nil_of_length_eq_zero ?_)
  rw [← (wheelSort_perm l).length_eq, hs]
  rfl

/-- A rank occurring in the hand yields a nonempty rank filter. -/
lemma filter_rank_ne_nil (hand : List Card) (r : Rank)
    (h : 0 < rankCount hand r) :
    hand.filter (fun c => c.rank == r) ≠ [] := by
  have hr : r ∈ ranksOf hand := List.count_pos_iff.mp h
  obtain ⟨c, hc, hcr⟩ := List.mem_map.mp hr
  intro hnil
  have : c ∈ hand.filter (fun c => c.rank == r) :=
    List.mem_filter.mpr ⟨hc, by simp [hcr]⟩
  rw [hnil] at this
  simp at this

/-- When some count equals the sought value, the rank find succeeds with a
rank of that count. -/
lemma findRankWithCount_spec (hand : List Card) (n : Nat)
    (h : ∃ r ∈ ranksOf hand, rankCount hand r = n) :
    ∃ r₀, findRankWithCount hand n = some r₀ ∧ rankCount hand r₀ = n := by
  obtain ⟨r, hr, hcount⟩ := h
  have hex : ∃ x ∈ dedupRanks hand, (rankCount hand x == n) = true :=
    ⟨r, (mem_dedupRanks hand r).mpr hr, by simp [hcount]⟩
  have hsome := List.find?_isSome.mpr hex
  cases hfind : findRankWithCount hand n with
  | none => rw [findRankWithCount] at hfind; rw [hfind] at hsome; simp at hsome
  | some r₀ =>
    rw [findRankWithCount] at hfind
    exact ⟨r₀, rfl, by simpa using List.find?_some hfind⟩

/-- When some suit count equals the sought value, the suit find succeeds
with a suit of that count. -/
lemma findSuitWithCount_spec (hand : List Card) (n : Nat)
    (h : someSuitCount hand n = true) :
    ∃ st₀, findSuitWithCount hand n = some st₀ ∧ suitCount hand st₀ = n := by
  rw [someSuitCount, List.any_eq_true] at h
  obtain ⟨st, hst, hc⟩ := h
  have hsome : (allSuits.find? (fun st => suitCount hand st == n)).isSome :=
    List.find?_isSome.mpr ⟨st, hst, hc⟩
  cases hfind : findSuitWithCount hand n with
  | none => rw [findSuitWithCount] at hfind; rw [hfind] at hsome; simp at hsome
  | some st₀ =>
    rw [findSuitWithCount] at hfind
    exact ⟨st₀, rfl, by simpa using List.find?_some hfind⟩

/-- A suit occurring in the hand yields a nonempty suit filter. -/
lemma filter_suit_ne_nil (hand : List Card) (st : Suit)
    (h : 0 < suitCount hand st) :
    hand.filter (fun c => c.suit == st) ≠ [] := by
  have hr : st ∈ hand.map Card.suit := List.count_pos_iff.mp h
  obtain ⟨c, hc, hcr⟩ := List.mem_map.mp hr
  intro hnil
  have : c ∈ hand.filter (fun c => c.suit == st) :=
    List.mem_filter.mpr ⟨hc, by simp [hcr]⟩
  rw [hnil] at this
  simp at this

/-- A value from the histogram shape list occurs as a rank count: used to
feed `findRankWithCount_spec` from a shape equation. -/
lemma count_mem_of_shape (hand : List Card) (n : Nat)
    (h : n ∈ countRanks hand) :
    ∃ r ∈ ranksOf hand, rankCount hand r = n :=
  (mem_countRanks hand n).mp h

/-- Destructuring of a length-5 list. -/
lemma list_len5 {α : Type} (l : List α) (h : l.length = 5) :
    ∃ a b c d e, l = [a, b, c, d, e] := by
  rcases l with - | ⟨a, - | ⟨b, - | ⟨c, - | ⟨d, - | ⟨e, - | ⟨f, t⟩⟩⟩⟩⟩⟩
  · simp at h
  · simp at h
  · simp at h
  · simp at h
  · simp at h
  · exact ⟨a, b, c, d, e, rfl⟩
  · simp at h

/-- Wheel rank values are injective. -/
lemma rankValueWheel_injective (r r' : Rank)
    (h : rankValueWheel r = rankValueWheel r') : r = r' := by
  revert h
  cases r <;> cases r' <;> decide

/-- Five strictly descending values spanning exactly 4 are consecutive. -/
lemma strict_sorted_gaps (v : Card → Nat) (c0 c1 c2 c3 c4 : Card)
    (hs : ([c0, c1, c2, c3, c4] : List Card).Sorted (fun a b => v b ≤ v a))
    (hnd : (([c0, c1, c2, c3, c4] : List Card).map v).Nodup)
    (hdist : v c0 - v c4 = 4) :
    v c0 - v c1 = 1 ∧ v c1 - v c2 = 1 ∧ v c2 - v c3 = 1 ∧ v c3 - v c4 = 1 := by
  simp [List.sorted_cons] at hs
  simp at hnd
  omega

/-- Under distinct ranks, an ace-high distance of 4 forces all ace gaps 1. -/
lemma gapsAce_all_one (hand : List Card) (h5 : hand.length = 5)
    (hrnd : (ranksOf hand).Nodup) (hdist : distAce hand = 4) :
    (gapsAce hand).all (fun g => g == 1) = true := by
  have hlen : (aceSort hand).length = 5 := by
    rw [(aceSort_perm hand).length_eq]; exact h5
  obtain ⟨c0, c1, c2, c3, c4, hs5⟩ := list_len5 _ hlen
  have hsort : (aceSort hand).Sorted aceGE := List.sorted_insertionSort _ _
  rw [hs5] at hsort
  have hrnd' : (ranksOf (aceSort hand)).Nodup :=
    (ranksOf_aceSort_perm hand).nodup_iff.mpr hrnd
  have hvnd : ((aceSort hand).map (fun c => rankValue c.rank)).Nodup := by
    have hmm : (aceSort hand).map (fun c => rankValue c.rank) =
        (ranksOf (aceSort hand)).map rankValue := by
      simp [ranksOf, List.map_map, Function.comp_def]
    rw [hmm]
    exact hrnd'.map_on
      (fun x _ y _ h => rankValue_injective x y h)
  rw [hs5] at hvnd
  have hdist' : rankValue c0.rank - rankValue c4.rank = 4 := by
    unfold distAce at hdist
    rw [hs5] at hdist
    simpa using hdist
  obtain ⟨g0, g1, g2, g3⟩ := strict_sorted_gaps (fun c => rankValue c.rank)
    c0 c1 c2 c3 c4 hsort hvnd hdist'
  unfold gapsAce
  rw [hs5]
  simp [List.range_succ]
  omega

/-- Under distinct ranks, a wheel distance of 4 forces all wheel gaps 1. -/
lemma gapsWheel_all_one (hand : List Card) (h5 : hand.length = 5)
    (hrnd : (ranksOf hand).Nodup) (hdist : distWheel hand = 4) :
    (gapsWheel hand).all (fun g => g == 1) = true := by
  have hlen : (wheelSort hand).length = 5 := by
    rw [(wheelSort_perm hand).length_eq]; exact h5
  obtain ⟨c0, c1, c2, c3, c4, hs5⟩ := list_len5 _ hlen
  have hsort : (wheelSort hand).Sorted wheelGE := List.sorted_insertionSort _ _
  rw [hs5] at hsort
  have hrnd' : (ranksOf (wheelSort hand)).Nodup :=
    (((wheelSort_perm hand).map Card.rank).nodup_iff).mpr hrnd
  have hvnd : ((wheelSort hand).map (fun c => rankValueWheel c.rank)).Nodup := by
    have hmm : (wheelSort hand).map (fun c => rankValueWheel c.rank) =
        (ranksOf (wheelSort hand)).map rankValueWheel := by
      simp [ranksOf, List.map_map, Function.comp_def]
    rw [hmm]
    exact hrnd'.map_on
      (fun x _ y _ h => rankValueWheel_injective x y h)
  rw [hs5] at hvnd
  have hdist' : rankValueWheel c0.rank - rankValueWheel c4.rank = 4 := by
    unfold distWheel at hdist
    rw [hs5] at hdist
    simpa using hdist
  obtain ⟨g0, g1, g2, g3⟩ := strict_sorted_gaps (fun c => rankValueWheel c.rank)
    c0 c1 c2 c3 c4 hsort hvnd hdist'
  unfold gapsWheel
  rw [hs5]
  simp [List.range_succ]
  omega

/-- Without a pair or better, a valid 5-card hand has 5 distinct ranks. -/
lemma ranks_nodup_of_no_pair (hand : List Card) (h5 : hand.length = 5)
    (hnd : hand.Nodup) (hpl : pairOrBetter hand = false) :
    (ranksOf hand).Nodup := by
  rw [ranks_nodup_iff_allones hand h5]
  rcases countRanks_shape hand h5 hnd with hc | hc | hc | hc | hc | hc <;>
    first
      | exact hc
      | (exfalso
         rw [pairOrBetter] at hpl
         simp [isPair, isTwoPair, isThreeOfAKind, isFullHouse, isFourOfAKind,
           hc] at hpl)

/-- A straight (plain or wheel) always yields nonempty straight key cards. -/
lemma getStraightCards_ne_nil (hand : List Card) (h5 : hand.length = 5)
    (hnd : hand.Nodup)
    (h : isStraight hand = true ∨ isStraightWheel hand = true) :
    getStraightCards hand ≠ [] := by
  have hne : hand ≠ [] := by intro hh; rw [hh] at h5; simp at h5
  have hpl : pairOrBetter hand = false := by
    rcases h with h | h
    · rw [isStraight] at h
      cases hp : pairOrBetter hand
      · rfl
      · rw [hp] at h; simp at h
    · rw [isStraightWheel] at h
      cases hp : pairOrBetter hand
      · rfl
      · rw [hp] at h; simp at h
  have hrnd := ranks_nodup_of_no_pair hand h5 hnd hpl
  by_cases hg : (gapsAce hand).all (fun g => g == 1) = true
  · simp only [getStraightCards, hg, if_true]
    exact aceSort_ne_nil hand hne
  · have hw : distWheel hand = 4 := by
      rcases h with h | h
      · rw [isStraight, hpl] at h
        simp at h
        rcases h with h | h
        · exact absurd (gapsAce_all_one hand h5 hrnd h) hg
        · rw [isStraightWheel, hpl] at h
          simpa using h
      · rw [isStraightWheel, hpl] at h
        simpa using h
    have hgw := gapsWheel_all_one hand h5 hrnd hw
    simp only [getStraightCards, hg, hgw, if_false, if_true, Bool.false_eq_true]
    exact wheelSort_ne_nil hand hne

/-- Lengths of the four draw slices of a 5-card hand. -/
lemma slice_lengths (hand : List Card) (h5 : hand.length = 5) :
    (firstFourAce hand).length = 4 ∧ (lastFourAce hand).length = 4 ∧
      (firstFourWheel hand).length = 4 ∧ (lastFourWheel hand).length = 4 := by
  have ha : (aceSort hand).length = 5 := by
    rw [(aceSort_perm hand).length_eq]; exact h5
  have hw : (wheelSort hand).length = 5 := by
    rw [(wheelSort_perm hand).length_eq]; exact h5
  refine ⟨?_, ?_, ?_, ?_⟩ <;>
    simp [firstFourAce, lastFourAce, firstFourWheel, lastFourWheel, ha, hw]

/-- Any qualifying slice yields nonempty straight-draw key cards. -/
lemma getStraightDrawCards_ne_nil (hand : List Card) (h5 : hand.length = 5)
    (hcond :
      (distAce (firstFourAce hand) == 3 ||
        distAce (firstFourAce hand) == 4) = true ∨
      (distAce (lastFourAce hand) == 3 ||
        distAce (lastFourAce hand) == 4) = true ∨
      (distWheel (firstFourWheel hand) == 3 ||
        distWheel (firstFourWheel hand) == 4) = true ∨
      (distWheel (lastFourWheel hand) == 3 ||
        distWheel (lastFourWheel hand) == 4) = true) :
    getStraightDrawCards hand ≠ [] := by
  obtain ⟨l1, l2, l3, l4⟩ := slice_lengths hand h5
  have n1 : firstFourAce hand ≠ [] := by
    intro h; rw [h] at l1; simp at l1
  have n2 : lastFourAce hand ≠ [] := by
    intro h; rw [h] at l2; simp at l2
  have n3 : firstFourWheel hand ≠ [] := by
    intro h; rw [h] at l3; simp at l3
  have n4 : lastFourWheel hand ≠ [] := by
    intro h; rw [h] at l4; simp at l4
  unfold getStraightDrawCards
  by_cases c1 : (distAce (firstFourAce hand) == 3 ||
      distAce (firstFourAce hand) == 4) = true
  · simp only [c1, if_true]
    simp at c1
    rcases c1 with c1 | c1 <;> simp [c1] <;>
      exact aceSort_ne_nil _ n1
  · simp at c1
    simp only [Bool.or_eq_true, beq_iff_eq, c1]
    by_cases c2 : (distAce (lastFourAce hand) == 3 ||
        distAce (lastFourAce hand) == 4) = true
    · simp at c2
      rcases c2 with c2 | c2 <;> simp [c2] <;>
        exact aceSort_ne_nil _ n2
    · simp at c2
      by_cases c3 : (distWheel (firstFourWheel hand) == 3 ||
          distWheel (firstFourWheel hand) == 4) = true
      · simp at c3
        rcases c3 with c3 | c3 <;> simp [c2, c3] <;>
          exact wheelSort_ne_nil _ n3
      · simp at c3
        by_cases c4 : (distWheel (lastFourWheel hand) == 3 ||
            distWheel (lastFourWheel hand) == 4) = true
        · simp at c4
          rcases c4 with c4 | c4 <;> simp [c2, c3, c4] <;>
            exact wheelSort_ne_nil _ n4
        · simp at c4
          exfalso
          rcases hcond with h | h | h | h <;> simp at h <;> omega

/-- A computed wheel open-ended draw yields a qualifying wheel slice. -/
lemma oesdw_val_cond (hand : List Card)
    (h : isOpenEndedStraightDrawWheel hand = true) :
    (distWheel (firstFourWheel hand) == 3 ||
      distWheel (firstFourWheel hand) == 4) = true ∨
    (distWheel (lastFourWheel hand) == 3 ||
      distWheel (lastFourWheel hand) == 4) = true := by
  rw [isOpenEndedStraightDrawWheel] at h
  simp at h
  rcases h.2 with h' | h'
  · left; simp [h']
  · right; simp [h']

/-- A computed wheel inside draw yields a qualifying wheel slice. -/
lemma isdw_val_cond (hand : List Card)
    (h : isInsideStraightDrawWheel hand = true) :
    (distWheel (firstFourWheel hand) == 3 ||
      distWheel (firstFourWheel hand) == 4) = true ∨
    (distWheel (lastFourWheel hand) == 3 ||
      distWheel (lastFourWheel hand) == 4) = true := by
  rw [isInsideStraightDrawWheel] at h
  simp at h
  rcases h.2 with h' | h'
  · left; simp [h']
  · right; simp [h']

/-- A stored-true wheel open-ended draw flag implies the computed value. -/
lemma storedOESDW_imp (hand : List Card)
    (h : storedOpenEndedStraightDrawWheel hand = true) :
    isOpenEndedStraightDrawWheel hand = true := by
  rw [storedOpenEndedStraightDrawWheel] at h
  split at h
  · exact h
  · split at h
    · simp at h
    · exact h

/-- A stored-true wheel inside draw flag implies the computed value. -/
lemma storedISDW_imp (hand : List Card)
    (h : storedInsideStraightDrawWheel hand = true) :
    isInsideStraightDrawWheel hand = true := by
  rw [storedInsideStraightDrawWheel] at h
  split at h
  · exact h
  · split at h
    · simp at h
    · exact h

/-- An open-ended straight draw yields a qualifying draw slice. -/
lemma oesd_cond (hand : List Card)
    (h : isOpenEndedStraightDraw hand = true) :
    (distAce (firstFourAce hand) == 3 ||
      distAce (firstFourAce hand) == 4) = true ∨
    (distAce (lastFourAce hand) == 3 ||
      distAce (lastFourAce hand) == 4) = true ∨
    (distWheel (firstFourWheel hand) == 3 ||
      distWheel (firstFourWheel hand) == 4) = true ∨
    (distWheel (lastFourWheel hand) == 3 ||
      distWheel (lastFourWheel hand) == 4) = true := by
  rw [isOpenEndedStraightDraw] at h
  split at h
  · rcases oesdw_val_cond hand h with h' | h'
    · right; right; left; exact h'
    · right; right; right; exact h'
  · simp at h
    rcases h with (h' | h') | h'
    · left; simp [h']
    · right; left; simp [h']
    · rcases oesdw_val_cond hand (by simpa using h') with h'' | h''
      · right; right; left; exact h''
      · right; right; right; exact h''

/-- An inside straight draw yields a qualifying draw slice. -/
lemma isd_cond (hand : List Card)
    (h : isInsideStraightDraw hand = true) :
    (distAce (firstFourAce hand) == 3 ||
      distAce (firstFourAce hand) == 4) = true ∨
    (distAce (lastFourAce hand) == 3 ||
      distAce (lastFourAce hand) == 4) = true ∨
    (distWheel (firstFourWheel hand) == 3 ||
      distWheel (firstFourWheel hand) == 4) = true ∨
    (distWheel (lastFourWheel hand) == 3 ||
      distWheel (lastFourWheel hand) == 4) = true := by
  rw [isInsideStraightDraw] at h
  split at h
  · rcases isdw_val_cond hand h with h' | h'
    · right; right; left; exact h'
    · right; right; right; exact h'
  · simp at h
    rcases h with (h' | h') | h'
    · left; simp [h']
    · right; left; simp [h']
    · rcases isdw_val_cond hand (by simpa using h') with h'' | h''
      · right; right; left; exact h''
      · right; right; right; exact h''

/-- A pair's key cards are nonempty. -/
lemma keyCardsPair_ne_nil (hand : List Card) (h5 : hand.length = 5)
    (hnd : hand.Nodup) (h : isPair hand = true) : keyCardsPair hand ≠ [] := by
  have hshape := (isPair_iff_shape hand h5 hnd).mp h
  obtain ⟨r₀, hfind, hc⟩ := findRankWithCount_spec hand 2
    (count_mem_of_shape hand 2 (by rw [hshape]; simp))
  rw [keyCardsPair, h]
  simp only [Bool.not_true, Bool.false_eq_true, if_false, hfind]
  exact aceSort_ne_nil _ (filter_rank_ne_nil hand r₀ (by omega))

/-- A three-of-a-kind's key cards are nonempty. -/
lemma keyCardsThreeOfAKind_ne_nil (hand : List Card) (h5 : hand.length = 5)
    (hnd : hand.Nodup) (h : isThreeOfAKind hand = true) :
    keyCardsThreeOfAKind hand ≠ [] := by
  have hshape := (isThreeOfAKind_iff_shape hand h5 hnd).mp h
  obtain ⟨r₀, hfind, hc⟩ := findRankWithCount_spec hand 3
    (count_mem_of_shape hand 3 (by rw [hshape]; simp))
  rw [keyCardsThreeOfAKind, h]
  simp only [Bool.not_true, Bool.false_eq_true, if_false, hfind]
  exact aceSort_ne_nil _ (filter_rank_ne_nil hand r₀ (by omega))

/-- A four-of-a-kind's key cards are nonempty. -/
lemma keyCardsFourOfAKind_ne_nil (hand : List Card) (h5 : hand.length = 5)
    (hnd : hand.Nodup) (h : isFourOfAKind hand = true) :
    keyCardsFourOfAKind hand ≠ [] := by
  have hshape := (isFourOfAKind_iff_shape hand h5 hnd).mp h
  obtain ⟨r₀, hfind, hc⟩ := findRankWithCount_spec hand 4
    (count_mem_of_shape hand 4 (by rw [hshape]; simp))
  rw [keyCardsFourOfAKind, h]
  simp only [Bool.not_true, Bool.false_eq_true, if_false, hfind]
  exact aceSort_ne_nil _ (filter_rank_ne_nil hand r₀ (by omega))

/-- A two-pair's key cards are nonempty. -/
lemma keyCardsTwoPair_ne_nil (hand : List Card) (h5 : hand.length = 5)
    (hnd : hand.Nodup) (h : isTwoPair hand = true) :
    keyCardsTwoPair hand ≠ [] := by
  have hshape := (isTwoPair_iff_shape hand h5 hnd).mp h
  obtain ⟨r, hr, hc⟩ := count_mem_of_shape hand 2 (by rw [hshape]; simp)
  obtain ⟨c, hcmem, hcr⟩ := List.mem_map.mp hr
  rw [keyCardsTwoPair, h]
  simp only [Bool.not_true, Bool.false_eq_true, if_false]
  intro hnil
  have hmem : c ∈ hand.filter (fun x =>
      ((dedupRanks hand).filter (fun r => rankCount hand r == 2)).contains
        x.rank) := by
    refine List.mem_filter.mpr ⟨hcmem, ?_⟩
    refine List.elem_eq_true_of_mem (List.mem_filter.mpr ?_)
    exact ⟨(mem_dedupRanks hand _).mpr (hcr ▸ hr), by rw [hcr]; simp [hc]⟩
  have := (mem_aceSort _ c).mpr hmem
  rw [hnil] at this
  simp at this

/-- A flush-suit filter's key cards are nonempty at positive counts. -/
lemma suit_keycards_ne_nil (hand : List Card) (n : Nat) (hn : 0 < n)
    (h : someSuitCount hand n = true) :
    (match findSuitWithCount hand n with
      | none => []
      | some st => aceSort (hand.filter (fun c => c.suit == st))) ≠ [] := by
  obtain ⟨st₀, hfind, hc⟩ := findSuitWithCount_spec hand n h
  rw [hfind]
  exact aceSort_ne_nil _ (filter_suit_ne_nil hand st₀ (by omega))

/-- A true stored flag yields nonempty key cards, for every category but
high card. -/
lemma keyCardsOf_ne_nil (hand : List Card) (h5 : hand.length = 5)
    (hnd : hand.Nodup) :
    ∀ c : Category, c ≠ Category.isHighCard → flagOf hand c = true →
      keyCardsOf hand c ≠ [] := by
  have hh : hand ≠ [] := by intro h; rw [h] at h5; simp at h5
  intro c hcne hflag
  cases c
  case isRoyalFlush =>
    simp only [keyCardsOf, flagOf] at hflag ⊢
    simp [hflag]
    exact aceSort_ne_nil _ hh
  case isStraightFlush =>
    simp only [keyCardsOf, flagOf] at hflag ⊢
    simp [hflag]
    exact aceSort_ne_nil _ hh
  case isFourOfAKind =>
    exact keyCardsFourOfAKind_ne_nil hand h5 hnd hflag
  case isFullHouse =>
    simp only [keyCardsOf, flagOf] at hflag ⊢
    simp [hflag]
    exact aceSort_ne_nil _ hh
  case isFlush =>
    simp only [keyCardsOf, flagOf] at hflag ⊢
    simp only [hflag, Bool.not_true, Bool.false_eq_true, if_false]
    exact suit_keycards_ne_nil hand 5 (by omega) hflag
  case isStraight =>
    simp only [keyCardsOf, flagOf] at hflag ⊢
    simp only [hflag, Bool.not_true, Bool.false_eq_true, if_false]
    exact getStraightCards_ne_nil hand h5 hnd (Or.inl hflag)
  case isThreeOfAKind =>
    exact keyCardsThreeOfAKind_ne_nil hand h5 hnd hflag
  case isTwoPair =>
    exact keyCardsTwoPair_ne_nil hand h5 hnd hflag
  case isPair =>
    exact keyCardsPair_ne_nil hand h5 hnd hflag
  case isTopPair =>
    simp only [flagOf] at hflag
    have hp : isPair hand = true := by
      have h' := hflag
      rw [isTopPair] at h'
      exact ((Bool.and_eq_true _ _).mp h').1
    simp only [keyCardsOf]
    simp only [hflag, Bool.not_true, Bool.false_eq_true, if_false]
    exact keyCardsPair_ne_nil hand h5 hnd hp
  case isMiddlePair =>
    simp only [flagOf] at hflag
    have hp : isPair hand = true := by
      have h' := hflag
      rw [isMiddlePair] at h'
      exact ((Bool.and_eq_true _ _).mp ((Bool.and_eq_true _ _).mp h').1).1
    simp only [keyCardsOf]
    simp only [hflag, Bool.not_true, Bool.false_eq_true, if_false]
    exact keyCardsPair_ne_nil hand h5 hnd hp
  case isBottomPair =>
    simp only [flagOf] at hflag
    have hp : isPair hand = true := by
      have h' := hflag
      rw [isBottomPair] at h'
      exact ((Bool.and_eq_true _ _).mp h').1
    simp only [keyCardsOf]
    simp only [hflag, Bool.not_true, Bool.false_eq_true, if_false]
    exact keyCardsPair_ne_nil hand h5 hnd hp
  case isTopAndMiddlePair =>
    simp only [flagOf] at hflag
    have hp : isTwoPair hand = true := by
      have h' := hflag
      rw [isTopAndMiddlePair] at h'
      exact ((Bool.and_eq_true _ _).mp h').1
    simp only [keyCardsOf]
    simp only [hflag, Bool.not_true, Bool.false_eq_true, if_false]
    exact keyCardsTwoPair_ne_nil hand h5 hnd hp
  case isTopAndBottomPair =>
    simp only [flagOf] at hflag
    have hp : isTwoPair hand = true := by
      have h' := hflag
      rw [isTopAndBottomPair] at h'
      exact ((Bool.and_eq_true _ _).mp h').1
    simp only [keyCardsOf]
    simp only [hflag, Bool.not_true, Bool.false_eq_true, if_false]
    exact keyCardsTwoPair_ne_nil hand h5 hnd hp
  case isMiddleAndBottomPair =>
    simp only [flagOf] at hflag
    have hp : isTwoPair hand = true := by
      have h' := hflag
      rw [isMiddleAndBottomPair] at h'
      exact ((Bool.and_eq_true _ _).mp h').1
    simp only [keyCardsOf]
    simp only [hflag, Bool.not_true, Bool.false_eq_true, if_false]
    exact keyCardsTwoPair_ne_nil hand h5 hnd hp
  case isTopThreeOfAKind =>
    simp only [flagOf] at hflag
    have hp : isThreeOfAKind hand = true := by
      have h' := hflag
      rw [isTopThreeOfAKind] at h'
      exact ((Bool.and_eq_true _ _).mp h').1
    simp only [keyCardsOf]
    simp only [hflag, Bool.not_true, Bool.false_eq_true, if_false]
    exact keyCardsThreeOfAKind_ne_nil hand h5 hnd hp
  case isMiddleThreeOfAKind =>
    simp only [flagOf] at hflag
    have hp : isThreeOfAKind hand = true := by
      have h' := hflag
      rw [isMiddleThreeOfAKind] at h'
      exact ((Bool.and_eq_true _ _).mp h').1
    simp only [keyCardsOf]
    simp only [hflag, Bool.not_true, Bool.false_eq_true, if_false]
    exact keyCardsThreeOfAKind_ne_nil hand h5 hnd hp
  case isBottomThreeOfAKind =>
    simp only [flagOf] at hflag
    have hp : isThreeOfAKind hand = true := by
      have h' := hflag
      rw [isBottomThreeOfAKind] at h'
      exact ((Bool.and_eq_true _ _).mp h').1
    simp only [keyCardsOf]
    simp only [hflag, Bool.not_true, Bool.false_eq_true, if_false]
    exact keyCardsThreeOfAKind_ne_nil hand h5 hnd hp
  case isFlushDraw =>
    simp only [flagOf] at hflag
    have hsc : someSuitCount hand 4 = true := by
      have h' := hflag
      rw [isFlushDraw] at h'
      exact ((Bool.and_eq_true _ _).mp h').2
    simp only [keyCardsOf]
    simp only [hflag, Bool.not_true, Bool.false_eq_true, if_false]
    exact suit_keycards_ne_nil hand 4 (by omega) hsc
  case isBackdoorFlushDraw =>
    simp only [flagOf] at hflag
    have hsc : someSuitCount hand 3 = true := by
      have h' := hflag
      rw [isBackdoorFlushDraw] at h'
      exact ((Bool.and_eq_true _ _).mp h').2
    simp only [keyCardsOf]
    simp only [hflag, Bool.not_true, Bool.false_eq_true, if_false]
    exact suit_keycards_ne_nil hand 3 (by omega) hsc
  case isOpenEndedStraightDraw =>
    simp only [keyCardsOf, flagOf] at hflag ⊢
    simp only [hflag, Bool.not_true, Bool.false_eq_true, if_false]
    exact getStraightDrawCards_ne_nil hand h5 (oesd_cond hand hflag)
  case isInsideStraightDraw =>
    simp only [keyCardsOf, flagOf] at hflag ⊢
    simp only [hflag, Bool.not_true, Bool.false_eq_true, if_false]
    exact getStraightDrawCards_ne_nil hand h5 (isd_cond hand hflag)
  case isStraightDraw =>
    simp only [keyCardsOf, flagOf] at hflag ⊢
    simp only [hflag, Bool.not_true, Bool.false_eq_true, if_false]
    rw [isStraightDraw] at hflag
    rcases (Bool.or_eq_true _ _).mp hflag with h | h
    · exact getStraightDrawCards_ne_nil hand h5 (oesd_cond hand h)
    · exact getStraightDrawCards_ne_nil hand h5 (isd_cond hand h)
  case isStraightWheel =>
    simp only [keyCardsOf, flagOf] at hflag ⊢
    simp only [hflag, Bool.not_true, Bool.false_eq_true, if_false]
    exact getStraightCards_ne_nil hand h5 hnd (Or.inr hflag)
  case isOpenEndedStraightDrawWheel =>
    simp only [keyCardsOf, flagOf] at hflag ⊢
    simp only [hflag, Bool.not_true, Bool.false_eq_true, if_false]
    refine getStraightDrawCards_ne_nil hand h5 ?_
    rcases oesdw_val_cond hand (storedOESDW_imp hand hflag) with h | h
    · exact Or.inr (Or.inr (Or.inl h))
    · exact Or.inr (Or.inr (Or.inr h))
  case isInsideStraightDrawWheel =>
    simp only [keyCardsOf, flagOf] at hflag ⊢
    simp only [hflag, Bool.not_true, Bool.false_eq_true, if_false]
    refine getStraightDrawCards_ne_nil hand h5 ?_
    rcases isdw_val_cond hand (storedISDW_imp hand hflag) with h | h
    · exact Or.inr (Or.inr (Or.inl h))
    · exact Or.inr (Or.inr (Or.inr h))
  case isHighCard => exact absurd rfl hcne

/-- A false stored flag yields empty key cards, for every category but
high card. -/
lemma keyCardsOf_eq_nil (hand : List Card) (c : Category)
    (hcne : c ≠ Category.isHighCard) (hflag : flagOf hand c = false) :
    keyCardsOf hand c = [] := by
  cases c <;>
    simp_all [keyCardsOf, flagOf, keyCardsPair, keyCardsTwoPair,
      keyCardsThreeOfAKind, keyCardsFourOfAKind]

/-- Straight key cards come from the hand. -/
lemma getStraightCards_subset (hand : List Card) (x : Card)
    (h : x ∈ getStraightCards hand) : x ∈ hand := by
  rw [getStraightCards] at h
  split at h
  · exact (mem_aceSort hand x).mp h
  · split at h
    · exact (mem_wheelSort hand x).mp h
    · simp at h

/-- Draw slice members come from the hand. -/
lemma firstFourAce_subset (hand : List Card) (x : Card)
    (h : x ∈ firstFourAce hand) : x ∈ hand :=
  (mem_aceSort hand x).mp (List.mem_of_mem_take h)

/-- Draw slice members come from the hand. -/
lemma lastFourAce_subset (hand : List Card) (x : Card)
    (h : x ∈ lastFourAce hand) : x ∈ hand :=
  (mem_aceSort hand x).mp (List.mem_of_mem_drop (List.mem_of_mem_take h))

/-- Draw slice members come from the hand. -/
lemma firstFourWheel_subset (hand : List Card) (x : Card)
    (h : x ∈ firstFourWheel hand) : x ∈ hand :=
  (mem_wheelSort hand x).mp (List.mem_of_mem_take h)

/-- Draw slice members come from the hand. -/
lemma lastFourWheel_subset (hand : List Card) (x : Card)
    (h : x ∈ lastFourWheel hand) : x ∈ hand :=
  (mem_wheelSort hand x).mp (List.mem_of_mem_drop (List.mem_of_mem_take h))

/-- Straight-draw key cards come from the hand. -/
lemma getStraightDrawCards_subset (hand : List Card) (x : Card)
    (h : x ∈ getStraightDrawCards hand) : x ∈ hand := by
  rw [getStraightDrawCards] at h
  split at h
  · exact firstFourAce_subset hand x ((aceSort_perm _).mem_iff.mp h)
  · split at h
    · exact lastFourAce_subset hand x ((aceSort_perm _).mem_iff.mp h)
    · split at h
      · exact firstFourWheel_subset hand x ((wheelSort_perm _).mem_iff.mp h)
      · split at h
        · exact lastFourWheel_subset hand x ((wheelSort_perm _).mem_iff.mp h)
        · simp at h

/-- Pair key cards come from the hand. -/
lemma keyCardsPair_subset (hand : List Card) (x : Card)
    (h : x ∈ keyCardsPair hand) : x ∈ hand := by
  rw [keyCardsPair] at h
  split at h
  · simp at h
  · split at h
    · simp at h
    · exact (List.mem_filter.mp ((aceSort_perm _).mem_iff.mp h)).1

/-- Two-pair key cards come from the hand. -/
lemma keyCardsTwoPair_subset (hand : List Card) (x : Card)
    (h : x ∈ keyCardsTwoPair hand) : x ∈ hand := by
  rw [keyCardsTwoPair] at h
  split at h
  · simp at h
  · exact (List.mem_filter.mp ((aceSort_perm _).mem_iff.mp h)).1

/-- Trips key cards come from the hand. -/
lemma keyCardsThreeOfAKind_subset (hand : List Card) (x : Card)
    (h : x ∈ keyCardsThreeOfAKind hand) : x ∈ hand := by
  rw [keyCardsThreeOfAKind] at h
  split at h
  · simp at h
  · split at h
    · simp at h
    · exact (List.mem_filter.mp ((aceSort_perm _).mem_iff.mp h)).1

/-- Quads key cards come from the hand. -/
lemma keyCardsFourOfAKind_subset (hand : List Card) (x : Card)
    (h : x ∈ keyCardsFourOfAKind hand) : x ∈ hand := by
  rw [keyCardsFourOfAKind] at h
  split at h
  · simp at h
  · split at h
    · simp at h
    · exact (List.mem_filter.mp ((aceSort_perm _).mem_iff.mp h)).1

/-- Every key card comes from the hand, whatever the category. -/
lemma keyCardsOf_subset (hand : List Card) :
    ∀ (c : Category) (x : Card), x ∈ keyCardsOf hand c → x ∈ hand := by
  intro c x h
  cases c <;> simp only [keyCardsOf] at h
  case isRoyalFlush =>
    split at h
    · simp at h
    · exact (mem_aceSort hand x).mp h
  case isStraightFlush =>
    split at h
    · simp at h
    · exact (mem_aceSort hand x).mp h
  case isFourOfAKind => exact keyCardsFourOfAKind_subset hand x h
  case isFullHouse =>
    split at h
    · simp at h
    · exact (mem_aceSort hand x).mp h
  case isFlush =>
    split at h
    · simp at h
    · split at h
      · simp at h
      · exact (List.mem_filter.mp ((aceSort_perm _).mem_iff.mp h)).1
  case isStraight =>
    split at h
    · simp at h
    · exact getStraightCards_subset hand x h
  case isThreeOfAKind => exact keyCardsThreeOfAKind_subset hand x h
  case isTwoPair => exact keyCardsTwoPair_subset hand x h
  case isPair => exact keyCardsPair_subset hand x h
  case isTopPair =>
    split at h
    · simp at h
    · exact keyCardsPair_subset hand x h
  case isMiddlePair =>
    split at h
    · simp at h
    · exact keyCardsPair_subset hand x h
  case isBottomPair =>
    split at h
    · simp at h
    · exact keyCardsPair_subset hand x h
  case isTopAndMiddlePair =>
    split at h
    · simp at h
    · exact keyCardsTwoPair_subset hand x h
  case isTopAndBottomPair =>
    split at h
    · simp at h
    · exact keyCardsTwoPair_subset hand x h
  case isMiddleAndBottomPair =>
    split at h
    · simp at h
    · exact keyCardsTwoPair_subset hand x h
  case isTopThreeOfAKind =>
    split at h
    · simp at h
    · exact keyCardsThreeOfAKind_subset hand x h
  case isMiddleThreeOfAKind =>
    split at h
    · simp at h
    · exact keyCardsThreeOfAKind_subset hand x h
  case isBottomThreeOfAKind =>
    split at h
    · simp at h
    · exact keyCardsThreeOfAKind_subset hand x h
  case isFlushDraw =>
    split at h
    · simp at h
    · split at h
      · simp at h
      · exact (List.mem_filter.mp ((aceSort_perm _).mem_iff.mp h)).1
  case isBackdoorFlushDraw =>
    split at h
    · simp at h
    · split at h
      · simp at h
      · exact (List.mem_filter.mp ((aceSort_perm _).mem_iff.mp h)).1
  case isOpenEndedStraightDraw =>
    split at h
    · simp at h
    · exact getStraightDrawCards_subset hand x h
  case isInsideStraightDraw =>
    split at h
    · simp at h
    · exact getStraightDrawCards_subset hand x h
  case isStraightDraw =>
    split at h
    · simp at h
    · exact getStraightDrawCards_subset hand x h
  case isStraightWheel =>
    split at h
    · simp at h
    · exact getStraightCards_subset hand x h
  case isOpenEndedStraightDrawWheel =>
    split at h
    · simp at h
    · exact getStraightDrawCards_subset hand x h
  case isInsideStraightDrawWheel =>
    split at h
    · simp at h
    · exact getStraightDrawCards_subset hand x h
  case isHighCard => simp at h

/-- The strict filter only ever clears flags, never sets them. -/
lemma strict_flag_imp (f : Category → Bool) (c : Category)
    (h : strictFlags f c = true) : f c = true := by
  cases c <;> simp only [strictFlags] at h <;>
    first
      | exact h
      | (split at h
         · simp at h
         · exact h)

/-- C4, amended: the key-card maps are built before strict filtering and
are never rewritten, so in both modes `keyCards[c]` (for `c` other than
`isHighCard`) is nonempty exactly when the unfiltered (non-strict) flag is
true; `keyCards.isHighCard` is always empty; and
`kickerCards.isHighCard` is always the full ace-high-sorted hand,
regardless of the `isHighCard` flag. -/
theorem keycards_nonempty_iff_unfiltered_flag (hand : List Card)
    (h5 : hand.length = 5) (hnd : hand.Nodup) :
    (∀ strict : Bool, ∀ c : Category, c ≠ Category.isHighCard →
      ((evaluateSingleHand hand strict).keyCards c ≠ [] ↔
        (evaluateSingleHand hand false).flags c = true)) ∧
    (∀ strict : Bool,
      (evaluateSingleHand hand strict).keyCards Category.isHighCard = []) ∧
    (∀ strict : Bool,
      (evaluateSingleHand hand strict).kickerCards Category.isHighCard =
        aceSort hand) := by
  have hkeys : ∀ strict : Bool,
      (evaluateSingleHand hand strict).keyCards = keyCardsOf hand := by
    intro strict; cases strict <;> rfl
  have hkick : ∀ strict : Bool,
      (evaluateSingleHand hand strict).kickerCards = kickerCardsOf hand := by
    intro strict; cases strict <;> rfl
  refine ⟨?_, ?_, ?_⟩
  · intro strict c hcne
    rw [hkeys]
    have hfl : (evaluateSingleHand hand false).flags = flagOf hand := rfl
    rw [hfl]
    constructor
    · intro hne
      cases hv : flagOf hand c with
      | false => exact absurd (keyCardsOf_eq_nil hand c hcne hv) hne
      | true => rfl
    · intro hflag
      exact keyCardsOf_ne_nil hand h5 hnd c hcne hflag
  · intro strict
    rw [hkeys]
    rfl
  · intro strict
    rw [hkick]
    rfl

/-- Witness for the amended C4 at the royal flush hand. -/
theorem keycards_nonempty_iff_unfiltered_flag_witness :
    (sampleRoyal.length = 5 ∧ sampleRoyal.Nodup) ∧
    ((∀ strict : Bool, ∀ c : Category, c ≠ Category.isHighCard →
      ((evaluateSingleHand sampleRoyal strict).keyCards c ≠ [] ↔
        (evaluateSingleHand sampleRoyal false).flags c = true)) ∧
    (∀ strict : Bool,
      (evaluateSingleHand sampleRoyal strict).keyCards Category.isHighCard
        = []) ∧
    (∀ strict : Bool,
      (evaluateSingleHand sampleRoyal strict).kickerCards Category.isHighCard
        = aceSort sampleRoyal)) :=
  ⟨⟨by decide, by decide⟩,
    keycards_nonempty_iff_unfiltered_flag sampleRoyal (by decide) (by decide)⟩

/-- C5: for every valid 5-card hand, in either mode, and every category
other than `isHighCard` whose returned flag is true, the key cards and
kicker cards partition the hand: together they cover exactly the 5 cards
and no card is in both. -/
theorem key_kicker_partition (hand : List Card) (h5 : hand.length = 5)
    (hnd : hand.Nodup) :
    ∀ strict : Bool, ∀ c : Category, c ≠ Category.isHighCard →
      (evaluateSingleHand hand strict).flags c = true →
      (∀ x : Card, (x ∈ (evaluateSingleHand hand strict).keyCards c ∨
          x ∈ (evaluateSingleHand hand strict).kickerCards c) ↔ x ∈ hand) ∧
      (∀ x : Card, ¬(x ∈ (evaluateSingleHand hand strict).keyCards c ∧
          x ∈ (evaluateSingleHand hand strict).kickerCards c)) := by
  intro strict c hcne hflag
  have hkeys : (evaluateSingleHand hand strict).keyCards = keyCardsOf hand := by
    cases strict <;> rfl
  have hkick : (evaluateSingleHand hand strict).kickerCards =
      kickerCardsOf hand := by
    cases strict <;> rfl
  have hf : flagOf hand c = true := by
    cases strict
    · exact hflag
    · exact strict_flag_imp (flagOf hand) c hflag
  have hne := keyCardsOf_ne_nil hand h5 hnd c hcne hf
  have hkickeq : kickerCardsOf hand c =
      aceSort (hand.filter (fun x => !(keyCardsOf hand c).contains x)) := by
    rw [kickerCardsOf, if_neg hcne]
    rw [if_neg (fun h => hne (List.isEmpty_iff.mp h))]
  rw [hkeys, hkick, hkickeq]
  constructor
  · intro x
    constructor
    · rintro (hx | hx)
      · exact keyCardsOf_subset hand c x hx
      · exact (List.mem_filter.mp ((aceSort_perm _).mem_iff.mp hx)).1
    · intro hx
      by_cases hk : x ∈ keyCardsOf hand c
      · exact Or.inl hk
      · refine Or.inr ((mem_aceSort _ x).mpr (List.mem_filter.mpr ⟨hx, ?_⟩))
        simpa using hk
  · rintro x ⟨hk, hkick'⟩
    have hx := (List.mem_filter.mp ((aceSort_perm _).mem_iff.mp hkick')).2
    simp at hx
    exact hx hk

/-- Witness for C5 at the royal flush hand in strict mode. -/
theorem key_kicker_partition_witness :
    (sampleRoyal.length = 5 ∧ sampleRoyal.Nodup ∧
      Category.isRoyalFlush ≠ Category.isHighCard ∧
      (evaluateSingleHand sampleRoyal true).flags Category.isRoyalFlush
        = true) ∧
    ((∀ x : Card,
        (x ∈ (evaluateSingleHand sampleRoyal true).keyCards
            Category.isRoyalFlush ∨
          x ∈ (evaluateSingleHand sampleRoyal true).kickerCards
            Category.isRoyalFlush) ↔ x ∈ sampleRoyal) ∧
      (∀ x : Card,
        ¬(x ∈ (evaluateSingleHand sampleRoyal true).keyCards
            Category.isRoyalFlush ∧
          x ∈ (evaluateSingleHand sampleRoyal true).kickerCards
            Category.isRoyalFlush))) :=
  ⟨⟨by decide, by decide, by decide, by decide⟩,
    key_kicker_partition sampleRoyal (by decide) (by decide) true
      Category.isRoyalFlush (by decide) (by decide)⟩

/-! Order invariance for inputs whose cards have pairwise distinct ranks:
with no rank ties, every stable sort is uniquely determined by the card
multiset, so the whole pipeline is permutation-invariant. -/

instance : IsAntisymm Card (fun a b => rankValue b.rank < rankValue a.rank) :=
  ⟨fun _ _ h h' => absurd (lt_trans h h') (lt_irrefl _)⟩

instance : IsAntisymm Card
    (fun a b => rankValueWheel b.rank < rankValueWheel a.rank) :=
  ⟨fun _ _ h h' => absurd (lt_trans h h') (lt_irrefl _)⟩

/-- With distinct ranks the ace-high sort is strictly descending. -/
lemma aceSort_strict_sorted (l : List Card) (hdr : (ranksOf l).Nodup) :
    (aceSort l).Sorted (fun a b => rankValue b.rank < rankValue a.rank) := by
  have hso : (aceSort l).Sorted aceGE := List.sorted_insertionSort _ _
  have hnd : (ranksOf (aceSort l)).Nodup :=
    (ranksOf_aceSort_perm l).nodup_iff.mpr hdr
  have hpw : (aceSort l).Pairwise (fun a b => a.rank ≠ b.rank) := by
    rw [ranksOf] at hnd
    exact List.pairwise_map.mp hnd
  refine (hso.and hpw).imp ?_
  rintro a b ⟨hle, hne⟩
  exact lt_of_le_of_ne hle (fun hv => hne (rankValue_injective _ _ hv.symm))

/-- With distinct ranks the wheel sort is strictly descending. -/
lemma wheelSort_strict_sorted (l : List Card) (hdr : (ranksOf l).Nodup) :
    (wheelSort l).Sorted
      (fun a b => rankValueWheel b.rank < rankValueWheel a.rank) := by
  have hso : (wheelSort l).Sorted wheelGE := List.sorted_insertionSort _ _
  have hnd : (ranksOf (wheelSort l)).Nodup :=
    ((wheelSort_perm l).map Card.rank).nodup_iff.mpr hdr
  have hpw : (wheelSort l).Pairwise (fun a b => a.rank ≠ b.rank) := by
    rw [ranksOf] at hnd
    exact List.pairwise_map.mp hnd
  refine (hso.and hpw).imp ?_
  rintro a b ⟨hle, hne⟩
  exact lt_of_le_of_ne hle
    (fun hv => hne (rankValueWheel_injective _ _ hv.symm))

/-- With distinct ranks the ace-high sort depends only on the multiset. -/
lemma aceSort_eq_of_perm (c1 c2 : List Card) (hperm : c1.Perm c2)
    (hdr : (ranksOf c1).Nodup) : aceSort c1 = aceSort c2 := by
  have hdr2 : (ranksOf c2).Nodup := ((hperm.map Card.rank).nodup_iff).mp hdr
  exact List.eq_of_perm_of_sorted
    ((aceSort_perm c1).trans (hperm.trans (aceSort_perm c2).symm))
    (aceSort_strict_sorted c1 hdr) (aceSort_strict_sorted c2 hdr2)

/-- With distinct ranks the wheel sort depends only on the multiset. -/
lemma wheelSort_eq_of_perm (c1 c2 : List Card) (hperm : c1.Perm c2)
    (hdr : (ranksOf c1).Nodup) : wheelSort c1 = wheelSort c2 := by
  have hdr2 : (ranksOf c2).Nodup := ((hperm.map Card.rank).nodup_iff).mp hdr
  exact List.eq_of_perm_of_sorted
    ((wheelSort_perm c1).trans (hperm.trans (wheelSort_perm c2).symm))
    (wheelSort_strict_sorted c1 hdr) (wheelSort_strict_sorted c2 hdr2)

/-- Permutations preserve the `contains` test. -/
lemma contains_eq_of_perm {α : Type} [DecidableEq α] (l1 l2 : List α)
    (h : l1.Perm l2) (a : α) : l1.contains a = l2.contains a := by
  cases h2 : l2.contains a with
  | false =>
    cases h1 : l1.contains a with
    | false => rfl
    | true =>
      have hmem := h.mem_iff.mp (List.mem_of_elem_eq_true h1)
      have hct : l2.contains a = true := List.elem_eq_true_of_mem hmem
      exact absurd (hct.symm.trans h2) (by decide)
  | true =>
    exact List.elem_eq_true_of_mem (h.mem_iff.mpr (List.mem_of_elem_eq_true h2))

/-- On a hand with pairwise distinct ranks, the hand key and the whole
single-hand evaluation depend only on the multiset of cards: every sort is
uniquely determined and every other primitive is count- or
membership-based. -/
lemma eval_eq_of_perm (c1 c2 : List Card) (hperm : c1.Perm c2)
    (hdr : (ranksOf c1).Nodup) :
    formatHandKey c1 = formatHandKey c2 ∧
      ∀ strict, evaluateSingleHand c1 strict = evaluateSingleHand c2 strict := by
  have hace : aceSort c1 = aceSort c2 := aceSort_eq_of_perm c1 c2 hperm hdr
  have hwheel : wheelSort c1 = wheelSort c2 := wheelSort_eq_of_perm c1 c2 hperm hdr
  have hrc : rankCount c1 = rankCount c2 := by
    funext r
    simp only [rankCount, ranksOf]
    exact (hperm.map Card.rank).count_eq r
  have hsc : suitCount c1 = suitCount c2 := by
    funext st
    simp only [suitCount]
    exact (hperm.map Card.suit).count_eq st
  have hdedup : dedupRanks c1 = dedupRanks c2 := by
    simp only [dedupRanks, hace]
  have hcountRanks : countRanks c1 = countRanks c2 := by
    simp only [countRanks, hdedup, hrc]
  have hrcs : rankCountsSorted c1 = rankCountsSorted c2 := by
    simp only [rankCountsSorted, hdedup, hrc]
  have hssc : someSuitCount c1 = someSuitCount c2 := by
    funext n
    simp only [someSuitCount, hsc]
  have hdistA : distAce c1 = distAce c2 := by
    simp only [distAce, hace]
  have hdistW : distWheel c1 = distWheel c2 := by
    simp only [distWheel, hwheel]
  have hff : firstFourAce c1 = firstFourAce c2 := by
    simp only [firstFourAce, hace]
  have hlf : lastFourAce c1 = lastFourAce c2 := by
    simp only [lastFourAce, hace]
  have hffw : firstFourWheel c1 = firstFourWheel c2 := by
    simp only [firstFourWheel, hwheel]
  have hlfw : lastFourWheel c1 = lastFourWheel c2 := by
    simp only [lastFourWheel, hwheel]
  have hgapsA : gapsAce c1 = gapsAce c2 := by
    simp only [gapsAce, hace]
  have hgapsW : gapsWheel c1 = gapsWheel c2 := by
    simp only [gapsWheel, hwheel]
  have hcont : ∀ r, (ranksOf c1).contains r = (ranksOf c2).contains r :=
    fun r => contains_eq_of_perm _ _ (hperm.map Card.rank) r
  have hPair : isPair c1 = isPair c2 := by simp only [isPair, hcountRanks]
  have hTwoPair : isTwoPair c1 = isTwoPair c2 := by
    simp only [isTwoPair, hcountRanks]
  have hTrips : isThreeOfAKind c1 = isThreeOfAKind c2 := by
    simp only [isThreeOfAKind, hcountRanks]
  have hFH : isFullHouse c1 = isFullHouse c2 := by
    simp only [isFullHouse, hcountRanks]
  have hQuads : isFourOfAKind c1 = isFourOfAKind c2 := by
    simp only [isFourOfAKind, hcountRanks]
  have hpob : pairOrBetter c1 = pairOrBetter c2 := by
    simp only [pairOrBetter, hPair, hTwoPair, hTrips, hFH, hQuads]
  have hFlush : isFlush c1 = isFlush c2 := by simp only [isFlush, hssc]
  have hTP : isTopPair c1 = isTopPair c2 := by
    simp only [isTopPair, hPair, hace, hrc]
  have hMP : isMiddlePair c1 = isMiddlePair c2 := by
    simp only [isMiddlePair, hPair, hTwoPair, hrcs]
  have hBP : isBottomPair c1 = isBottomPair c2 := by
    simp only [isBottomPair, hPair, hace, hrc]
  have hTMP : isTopAndMiddlePair c1 = isTopAndMiddlePair c2 := by
    simp only [isTopAndMiddlePair, hTwoPair, hrcs]
  have hTBP : isTopAndBottomPair c1 = isTopAndBottomPair c2 := by
    simp only [isTopAndBottomPair, hTwoPair, hrcs]
  have hMBP : isMiddleAndBottomPair c1 = isMiddleAndBottomPair c2 := by
    simp only [isMiddleAndBottomPair, hTwoPair, hrcs]
  have hTT : isTopThreeOfAKind c1 = isTopThreeOfAKind c2 := by
    simp only [isTopThreeOfAKind, hTrips, hace, hrc]
  have hMT : isMiddleThreeOfAKind c1 = isMiddleThreeOfAKind c2 := by
    simp only [isMiddleThreeOfAKind, hTrips, hrcs]
  have hBT : isBottomThreeOfAKind c1 = isBottomThreeOfAKind c2 := by
    simp only [isBottomThreeOfAKind, hTrips, hace, hrc]
  have hFD : isFlushDraw c1 = isFlushDraw c2 := by
    simp only [isFlushDraw, hFlush, hssc]
  have hBFD : isBackdoorFlushDraw c1 = isBackdoorFlushDraw c2 := by
    simp only [isBackdoorFlushDraw, hFlush, hFD, hssc]
  have hSW : isStraightWheel c1 = isStraightWheel c2 := by
    simp only [isStraightWheel, hpob, hdistW]
  have hS : isStraight c1 = isStraight c2 := by
    simp only [isStraight, hpob, hdistA, hSW]
  have hRF : isRoyalFlush c1 = isRoyalFlush c2 := by
    simp only [isRoyalFlush, hFlush, hS, hcont]
  have hSF : isStraightFlush c1 = isStraightFlush c2 := by
    simp only [isStraightFlush, hFlush, hS, hRF]
  have hOESDWv : isOpenEndedStraightDrawWheel c1 =
      isOpenEndedStraightDrawWheel c2 := by
    simp only [isOpenEndedStraightDrawWheel, hpob, hSW, hffw, hlfw]
  have hOESD : isOpenEndedStraightDraw c1 = isOpenEndedStraightDraw c2 := by
    simp only [isOpenEndedStraightDraw, hpob, hS, hOESDWv, hff, hlf]
  have hsOESDW : storedOpenEndedStraightDrawWheel c1 =
      storedOpenEndedStraightDrawWheel c2 := by
    simp only [storedOpenEndedStraightDrawWheel, hpob, hS, hff, hlf, hOESDWv]
  have hISDWv : isInsideStraightDrawWheel c1 = isInsideStraightDrawWheel c2 := by
    simp only [isInsideStraightDrawWheel, hpob, hSW, hffw, hlfw]
  have hISD : isInsideStraightDraw c1 = isInsideStraightDraw c2 := by
    simp only [isInsideStraightDraw, hpob, hS, hISDWv, hff, hlf]
  have hsISDW : storedInsideStraightDrawWheel c1 =
      storedInsideStraightDrawWheel c2 := by
    simp only [storedInsideStraightDrawWheel, hpob, hS, hff, hlf, hISDWv]
  have hSD : isStraightDraw c1 = isStraightDraw c2 := by
    simp only [isStraightDraw, hOESD, hISD]
  have hHC : isHighCard c1 = isHighCard c2 := by
    simp only [isHighCard, hPair, hTwoPair, hTrips, hFH, hQuads, hFlush, hS]
  have hflag : flagOf c1 = flagOf c2 := by
    funext c
    cases c <;>
      simp only [flagOf, hRF, hSF, hQuads, hFH, hFlush, hS, hTrips, hTwoPair,
        hPair, hTP, hMP, hBP, hTMP, hTBP, hMBP, hTT, hMT, hBT, hFD, hBFD,
        hOESD, hISD, hSD, hSW, hsOESDW, hsISDW, hHC]
  have hfilterA : ∀ p : Card → Bool,
      aceSort (c1.filter p) = aceSort (c2.filter p) := by
    intro p
    refine aceSort_eq_of_perm _ _ (hperm.filter p) ?_
    exact List.Nodup.sublist ((List.filter_sublist c1).map Card.rank) hdr
  have hfindR : findRankWithCount c1 = findRankWithCount c2 := by
    funext n
    simp only [findRankWithCount, hdedup, hrc]
  have hfindS : findSuitWithCount c1 = findSuitWithCount c2 := by
    funext n
    simp only [findSuitWithCount, hsc]
  have hGSC : getStraightCards c1 = getStraightCards c2 := by
    simp only [getStraightCards, hgapsA, hgapsW, hace, hwheel]
  have hGSDC : getStraightDrawCards c1 = getStraightDrawCards c2 := by
    simp only [getStraightDrawCards, hff, hlf, hffw, hlfw]
  have hkP : keyCardsPair c1 = keyCardsPair c2 := by
    simp only [keyCardsPair, hPair, hfindR, hfilterA]
  have hk2 : keyCardsTwoPair c1 = keyCardsTwoPair c2 := by
    simp only [keyCardsTwoPair, hTwoPair, hdedup, hrc, hfilterA]
  have hk3 : keyCardsThreeOfAKind c1 = keyCardsThreeOfAKind c2 := by
    simp only [keyCardsThreeOfAKind, hTrips, hfindR, hfilterA]
  have hk4 : keyCardsFourOfAKind c1 = keyCardsFourOfAKind c2 := by
    simp only [keyCardsFourOfAKind, hQuads, hfindR, hfilterA]
  have hkey : keyCardsOf c1 = keyCardsOf c2 := by
    funext c
    cases c <;>
      simp only [keyCardsOf, hRF, hace, hSF, hk4, hFH, hFlush, hfindS,
        hfilterA, hS, hGSC, hk3, hk2, hkP, hTP, hMP, hBP, hTMP, hTBP, hMBP,
        hTT, hMT, hBT, hFD, hBFD, hOESD, hGSDC, hISD, hSD, hSW, hsOESDW,
        hsISDW]
  have hkick : kickerCardsOf c1 = kickerCardsOf c2 := by
    funext c
    simp only [kickerCardsOf, hace, hkey, hfilterA]
  refine ⟨?_, ?_⟩
  · simp only [formatHandKey, hace]
  · intro strict
    simp only [evaluateSingleHand, nonStrictEval, hflag, hkey, hkick]

/-- A list is produced by `#generateCombinations` exactly when it is an
order-preserving selection (sublist) of the input of the requested size. -/
lemma mem_generateCombinations :
    ∀ (n : Nat) (l a : List Card),
      a ∈ generateCombinations n l ↔ a.Sublist l ∧ a.length = n := by
  intro n
  induction n with
  | zero =>
    intro l a
    simp only [generateCombinations, List.mem_singleton, List.length_eq_zero]
    constructor
    · rintro rfl
      exact ⟨List.nil_sublist l, rfl⟩
    · rintro ⟨_, rfl⟩
      rfl
  | succ n ih =>
    intro l a
    rw [generateCombinations]
    by_cases hlt : l.length < n + 1
    · simp only [if_pos hlt, List.not_mem_nil, false_iff]
      rintro ⟨hs, hlen⟩
      have := hs.length_le
      omega
    · rw [if_neg hlt]
      by_cases heq : l.length = n + 1
      · rw [if_pos (by simp [heq])]
        simp only [List.mem_singleton]
        constructor
        · rintro rfl
          exact ⟨List.Sublist.refl _, heq⟩
        · rintro ⟨hs, hlen⟩
          exact hs.eq_of_length (by omega)
      · rw [if_neg (by simp [heq])]
        simp only [List.mem_flatten, List.mem_map, List.mem_range]
        constructor
        · rintro ⟨_, ⟨i, hi, rfl⟩, hmem⟩
          obtain ⟨combo, hcombo, rfl⟩ := List.mem_map.mp hmem
          obtain ⟨hsub, hlen⟩ := (ih (l.drop (i + 1)) combo).mp hcombo
          have hiL : i < l.length := by omega
          have hgetD : l.getD i dummyCard = l.get ⟨i, hiL⟩ := by
            simp [List.getD_eq_getElem?_getD, List.getElem?_eq_getElem hiL]
          constructor
          · rw [hgetD]
            have h1 : List.Sublist (l.get ⟨i, hiL⟩ :: combo)
                (l.get ⟨i, hiL⟩ :: l.drop (i + 1)) :=
              List.Sublist.cons₂ _ hsub
            have h2 : l.get ⟨i, hiL⟩ :: l.drop (i + 1) = l.drop i :=
              List.getElem_cons_drop l i hiL
            exact (h2 ▸ h1).trans (List.drop_sublist i l)
          · simp [hlen]
        · rintro ⟨hsub, hlen⟩
          obtain ⟨x, t, rfl⟩ : ∃ x t, a = x :: t := by
            cases a with
            | nil => simp at hlen
            | cons x t => exact ⟨x, t, rfl⟩
          obtain ⟨r1, r2, hl, hxr, htr⟩ := List.cons_sublist_iff.mp hsub
          obtain ⟨j, hj, hx⟩ := List.mem_iff_getElem.mp hxr
          have hdropeq : l.drop (j + 1) = r1.drop (j + 1) ++ r2 := by
            rw [hl, List.drop_append_of_le_length (by omega)]
          have htdrop : List.Sublist t (l.drop (j + 1)) := by
            rw [hdropeq]
            exact htr.trans (List.sublist_append_right _ _)
          have hjlen : j < l.length := by
            rw [hl, List.length_append]
            omega
          have hgetD : l.getD j dummyCard = x := by
            rw [List.getD_eq_getElem?_getD, hl,
              List.getElem?_append_left hj, List.getElem?_eq_getElem hj]
            simpa using hx
          have htlen : t.length = n := by simpa using hlen
          have hbound : j < l.length - (n + 1) + 1 := by
            have hle := htdrop.length_le
            rw [List.length_drop] at hle
            omega
          refine ⟨_, ⟨j, hbound, rfl⟩, ?_⟩
          refine List.mem_map.mpr ⟨t, (ih _ t).mpr ⟨htdrop, htlen⟩, ?_⟩
          rw [hgetD]

/-- Transport of one result entry along a permutation of the cards: every
entry produced from `l1` is produced from `l2` as well when all ranks are
distinct. -/
lemma evalAll_mem_mp (l1 l2 : List Card) (hperm : l1.Perm l2)
    (hdr : (ranksOf l1).Nodup) (strict : Bool) (p : String × Evaluation)
    (hp : p ∈ evaluateAllCombinations l1 strict) :
    p ∈ evaluateAllCombinations l2 strict := by
  have hlen : l1.length = l2.length := hperm.length_eq
  rw [evaluateAllCombinations] at hp
  rw [evaluateAllCombinations, ← hlen]
  by_cases h5 : l1.length = 5
  · rw [if_pos (by simp [h5])] at hp ⊢
    obtain ⟨hkey, heval⟩ := eval_eq_of_perm l1 l2 hperm hdr
    simp only [List.mem_singleton] at hp ⊢
    rw [hp, hkey, heval strict]
  · rw [if_neg (by simp [h5])] at hp ⊢
    obtain ⟨combo, hcombo, rfl⟩ := List.mem_map.mp hp
    obtain ⟨hsub, hlen5⟩ := (mem_generateCombinations 5 l1 combo).mp hcombo
    obtain ⟨c2, hc2p, hc2sub⟩ :=
      List.Subperm.trans hsub.subperm hperm.subperm
    have hdrc : (ranksOf combo).Nodup :=
      List.Nodup.sublist (hsub.map Card.rank) hdr
    obtain ⟨hkey, heval⟩ := eval_eq_of_perm combo c2 hc2p.symm hdrc
    refine List.mem_map.mpr ⟨c2, ?_, ?_⟩
    · exact (mem_generateCombinations 5 l2 c2).mpr
        ⟨hc2sub, hc2p.length_eq.trans hlen5⟩
    · rw [hkey, heval true]

/-- A permutation of a valid input is valid. -/
lemma validInput_perm (cards1 cards2 : List String) (hperm : cards1.Perm cards2)
    (hval : validInput cards1) : validInput cards2 := by
  obtain ⟨h5, hwf, hnd⟩ := hval
  exact ⟨hperm.length_eq ▸ h5,
    fun s hs => hwf s (hperm.mem_iff.mpr hs), hperm.nodup_iff.mp hnd⟩

instance (cards : List String) : Decidable (validInput cards) := by
  unfold validInput
  infer_instance

/-- C6 (amended): order invariance holds on the rank-distinct fragment.  For
every valid input whose cards all have distinct ranks, evaluating any
permutation of the input produces a Result with the same entries (the same
keys paired with the same Evaluations), in both modes.  (With equal-rank
cards present the claim fails as stated: the stable sorts keep ties in
input order, so keys and card sequences depend on the input order.) -/
theorem order_invariance_distinct_ranks (cards1 cards2 : List String)
    (hperm : cards1.Perm cards2) (hval : validInput cards1)
    (hdr : (ranksOf (cards1.filterMap parseCard)).Nodup) :
    ∀ (strict : Bool) (p : String × Evaluation),
      p ∈ okEntries (evaluateHand cards1 strict) ↔
        p ∈ okEntries (evaluateHand cards2 strict) := by
  intro strict p
  have hval2 := validInput_perm cards1 cards2 hperm hval
  have hok1 : validateCards cards1 = .ok () :=
    (validateCards_ok_iff cards1).mpr hval
  have hok2 : validateCards cards2 = .ok () :=
    (validateCards_ok_iff cards2).mpr hval2
  have hpc : (cards1.filterMap parseCard).Perm (cards2.filterMap parseCard) :=
    hperm.filterMap parseCard
  have hdr2 : (ranksOf (cards2.filterMap parseCard)).Nodup :=
    ((hpc.map Card.rank).nodup_iff).mp hdr
  simp only [evaluateHand, hok1, hok2, okEntries, Except.toOption,
    Option.getD]
  exact ⟨fun h => evalAll_mem_mp _ _ hpc hdr strict p h,
    fun h => evalAll_mem_mp _ _ hpc.symm hdr2 strict p h⟩

/-- The amended C6 at a concrete permuted pair of rank-distinct inputs. -/
theorem order_invariance_distinct_ranks_witness :
    (List.Perm ["As", "Kd", "Qh", "Jc", "Ts"] ["Ts", "Jc", "Qh", "Kd", "As"]) ∧
      validInput ["As", "Kd", "Qh", "Jc", "Ts"] ∧
      (ranksOf (["As", "Kd", "Qh", "Jc", "Ts"].filterMap parseCard)).Nodup ∧
      ∀ p : String × Evaluation,
        p ∈ okEntries (evaluateHand ["As", "Kd", "Qh", "Jc", "Ts"] true) ↔
          p ∈ okEntries (evaluateHand ["Ts", "Jc", "Qh", "Kd", "As"] true) :=
  ⟨by decide, by decide, by decide,
    order_invariance_distinct_ranks _ _ (by decide) (by decide) (by decide)
      true⟩
